import Mathlib

/-!
Verification development for an in-memory relational database engine
(Go source: storage layer with typed values, tables, B-tree indexes;
SQL lexer, parser and executor).  Each Go function used by the claims is
translated into an executable Lean definition; machine `int64` values are
modelled as `Int` (overflow is outside the scope of the claims), Go
`float64` is modelled by an inductive with finite rationals and the IEEE
special values, Go strings by `String` (byte-lexicographic order on valid
UTF-8 agrees with character-lexicographic order), and Go maps by
association lists (iteration order is commented where it could matter).
-/

namespace RDBMS

deriving instance DecidableEq for Except

/-! ### Value system (internal/storage/types.go)

Go `float64` model: a finite rational, the two infinities, or NaN.
Go `==` on float64 is equality of finite values (with `+0 == -0`, which the
rational model identifies) and `inf == inf`, but `NaN == x` is false for
every `x` including NaN itself; `<` orders `-inf < finite < +inf` and is
false whenever either operand is NaN. -/
inductive FloatVal where
  | finite (q : ℚ)
  | posInf
  | negInf
  | nan
  deriving DecidableEq, Repr

/-- Go `float64` equality (`f.Value == o.Value`). -/
def FloatVal.feq : FloatVal → FloatVal → Bool
  | .finite a, .finite b => a == b
  | .posInf, .posInf => true
  | .negInf, .negInf => true
  | _, _ => false

/-- Go `float64` strict order (`f.Value < o.Value`). -/
def FloatVal.flt : FloatVal → FloatVal → Bool
  | .finite a, .finite b => decide (a < b)
  | .finite _, .posInf => true
  | .negInf, .finite _ => true
  | .negInf, .posInf => true
  | _, _ => false

/-- Tagged union of scalar values (`Value` in types.go): NullValue,
IntegerValue (int64, modelled as `Int`), FloatValue, TextValue,
BooleanValue. -/
inductive Value where
  | null
  | integer (v : Int)
  | float (v : FloatVal)
  | text (v : String)
  | boolean (v : Bool)
  deriving DecidableEq, Repr

/-- The `DataType` enumeration of types.go. -/
inductive DataType where
  | tInteger
  | tFloat
  | tText
  | tBoolean
  | tNull
  deriving DecidableEq, Repr

/-- The `Type()` method of each value kind. -/
def Value.typeOf : Value → DataType
  | .null => .tNull
  | .integer _ => .tInteger
  | .float _ => .tFloat
  | .text _ => .tText
  | .boolean _ => .tBoolean

/-- The `Equals` methods of types.go.  Each Go method type-asserts its
argument against the receiver kind and returns `false` on a failed
assertion; `NullValue.Equals` returns whether the argument is a
NullValue. -/
def Value.equals : Value → Value → Bool
  | .null, .null => true
  | .null, _ => false
  | .integer a, .integer b => a == b
  | .integer _, _ => false
  | .float a, .float b => a.feq b
  | .float _, _ => false
  | .text a, .text b => a == b
  | .text _, _ => false
  | .boolean a, .boolean b => a == b
  | .boolean _, _ => false

/-- The `LessThan` methods of types.go.  `NullValue.LessThan` is
constantly false; the others type-assert and compare
(`BooleanValue.LessThan` is `!b.Value && o.Value`). -/
def Value.lessThan : Value → Value → Bool
  | .null, _ => false
  | .integer a, .integer b => decide (a < b)
  | .integer _, _ => false
  | .float a, .float b => a.flt b
  | .float _, _ => false
  | .text a, .text b => decide (a < b)
  | .text _, _ => false
  | .boolean a, .boolean b => !a && b
  | .boolean _, _ => false

/-- Whether a value is the Float NaN. -/
def Value.isNaN : Value → Bool
  | .float .nan => true
  | _ => false

/-! ### Claims C6 and C10: algebraic properties of equals and less_than -/

/-- C6 counterexample: the claim states that for every pair in which either
operand is Null both `equals` and `less_than` return false, but
`NullValue.Equals` returns true when the other operand is also a
NullValue. -/
theorem C6_null_equals_null : Value.equals .null .null = true := rfl

/-- C6 (amended): for every pair of values with different tags both `equals`
and `less_than` return false; `less_than` returns false whenever either
operand is Null; with a Null operand `equals` returns true exactly when both
operands are Null. -/
theorem C6_cross_type_comparisons (a b : Value) :
    (a.typeOf ≠ b.typeOf → a.equals b = false ∧ a.lessThan b = false) ∧
    ((a = .null ∨ b = .null) → a.lessThan b = false) ∧
    ((a = .null ∨ b = .null) → (a.equals b = true ↔ a = .null ∧ b = .null)) := by
  cases a <;> cases b <;> simp [Value.typeOf, Value.equals, Value.lessThan]

/-- Witness for C6: the amended theorem applied to an Integer and a Text
value. -/
theorem C6_cross_type_comparisons_witness :
    Value.equals (.integer 1) (.text "a") = false ∧
    Value.lessThan (.integer 1) (.text "a") = false :=
  (C6_cross_type_comparisons (.integer 1) (.text "a")).1 (by decide)

/-- C10 counterexample: a Float NaN and the Float 1 have the same tag and
are not `equals`, yet neither is `less_than` the other, so "exactly one of
`a.less_than(b)` and `b.less_than(a)` holds" fails. -/
theorem C10_nan_not_trichotomous :
    Value.typeOf (.float .nan) = Value.typeOf (.float (.finite 1)) ∧
    Value.equals (.float .nan) (.float (.finite 1)) = false ∧
    Value.lessThan (.float .nan) (.float (.finite 1)) = false ∧
    Value.lessThan (.float (.finite 1)) (.float .nan) = false := by
  refine ⟨rfl, ?_, rfl, rfl⟩
  simp [Value.equals, FloatVal.feq]

/-- C10 (amended): `less_than` is irreflexive, transitive and asymmetric on
all values; within a single non-null tag it is total on non-equal values
provided neither operand is the Float NaN (with a NaN operand both
`less_than` directions and `equals` are false); and Boolean ordering is
`false < true`. -/
theorem C10_lessThan_strict_order :
    (∀ a : Value, a.lessThan a = false) ∧
    (∀ a b c : Value, a.lessThan b = true → b.lessThan c = true →
      a.lessThan c = true) ∧
    (∀ a b : Value, a.lessThan b = true → b.lessThan a = false) ∧
    (∀ a b : Value, a.typeOf = b.typeOf → a.typeOf ≠ .tNull →
      a.isNaN = false → b.isNaN = false → a.equals b = false →
      (a.lessThan b = true ∨ b.lessThan a = true)) ∧
    Value.lessThan (.boolean false) (.boolean true) = true := by
  refine ⟨?_, ?_, ?_, ?_, rfl⟩
  · intro a
    cases a with
    | float v => cases v <;> simp [Value.lessThan, FloatVal.flt]
    | boolean b => cases b <;> simp [Value.lessThan]
    | _ => simp [Value.lessThan]
  · intro a b c hab hbc
    cases a <;> cases b <;> simp_all [Value.lessThan] <;>
      cases c <;> simp_all [Value.lessThan]
    all_goals first
      | omega
      | exact lt_trans hab hbc
      | (rename_i x y z
         cases x <;> cases y <;> cases z <;>
           simp_all [FloatVal.flt] <;> linarith)
  · intro a b hab
    cases a <;> cases b <;> simp_all [Value.lessThan]
    all_goals first
      | omega
      | exact le_of_lt hab
      | (rename_i x y
         cases x <;> cases y <;> simp_all [FloatVal.flt] <;> linarith)
  · intro a b htag hnull hna hnb hne
    cases a <;> cases b <;>
      simp_all [Value.typeOf, Value.equals, Value.lessThan, Value.isNaN]
    all_goals first
      | omega
      | exact lt_or_gt_of_ne hne
      | exact fun h => hne (congrArg String.mk h)
      | (rename_i x y
         cases x <;> cases y <;>
           simp_all [FloatVal.feq, FloatVal.flt, Value.isNaN] <;>
           try exact lt_or_gt_of_ne hne)
/-- Witness for C10: totality applied to the Integers 1 and 2, and
transitivity applied to the Integers 1, 2, 3. -/
theorem C10_lessThan_strict_order_witness :
    (Value.lessThan (.integer 1) (.integer 2) = true ∨
      Value.lessThan (.integer 2) (.integer 1) = true) ∧
    Value.lessThan (.integer 1) (.integer 3) = true :=
  ⟨C10_lessThan_strict_order.2.2.2.1 (.integer 1) (.integer 2) rfl
      (by decide) (by decide) (by decide) (by decide),
    C10_lessThan_strict_order.2.1 (.integer 1) (.integer 2) (.integer 3)
      (by decide) (by decide)⟩

/-! ### Rows, columns and schemas (internal/storage/types.go, table.go) -/

/-- A Row is its ordered vector of values (`Row.Values`). -/
abbrev Row := List Value

/-- The `Row.Get` method: bounds-checked indexed read (Go returns an
"index out of bounds" error outside `[0, len)`). -/
def rowGet (r : Row) (i : Int) : Except String Value :=
  if 0 ≤ i ∧ i < r.length then .ok (r.getD i.toNat .null)
  else .error ("index out of bounds: " ++ toString i)

/-- The `Row.Set` method: bounds-checked indexed write; out of bounds the
Go method returns an error and leaves the row unchanged (callers in the
source ignore the returned error). -/
def rowSet (r : Row) (i : Int) (v : Value) : Row :=
  if 0 ≤ i ∧ i < r.length then r.set i.toNat v else r

/-- A column definition (`Column` in types.go). -/
structure Column where
  name : String
  type : DataType
  primaryKey : Bool
  unique : Bool
  notNull : Bool
  defaultVal : Option Value
  deriving DecidableEq, Repr

/-- An ordered list of column definitions (`Schema`). -/
structure Schema where
  columns : List Column
  deriving DecidableEq, Repr

/-- The `Schema.ColumnIndex` method: index of the first column with the
given (case-sensitive) name, `-1` when absent. -/
def Schema.columnIndex (s : Schema) (name : String) : Int :=
  match s.columns.findIdx? (fun c => c.name == name) with
  | some i => (i : Int)
  | none => -1

/-! ### Expression evaluation (sql executor)

The expression AST of the sql package: `LiteralExpression`, `NullLiteral`,
`ColumnRef`, `BinaryExpression`, `UnaryExpression`.  The AST also declares
a `FunctionCall` variant, but the parser never constructs one and the
evaluator maps it to its default "unsupported expression type" error, so
it is omitted here. -/
inductive Expr where
  | literal (value : String)
  | nullLit
  | colRef (table : String) (column : String)
  | binary (left : Expr) (op : String) (right : Expr)
  | unary (op : String) (right : Expr)
  deriving DecidableEq, Repr

/-- ASCII digit test (the `\d` of the Go regexes). -/
def isDigitChar (c : Char) : Bool := decide ('0' ≤ c) && decide (c ≤ '9')

/-- The `isNumericLiteral` regex `^-?\d+\.?\d*$`. -/
def isNumericLiteral (s : String) : Bool :=
  let cs := match s.toList with
    | '-' :: rest => rest
    | cs => cs
  let ds := cs.takeWhile isDigitChar
  let rest := cs.dropWhile isDigitChar
  decide (ds ≠ []) &&
    (match rest with
     | [] => true
     | '.' :: frac => frac.all isDigitChar
     | _ => false)

/-- The `containsDecimal` regex: the string contains a dot. -/
def containsDecimal (s : String) : Bool := s.toList.contains '.'

/-- Decimal digit list to a natural number. -/
def digitsToNat (ds : List Char) : Nat :=
  ds.foldl (fun n c => 10 * n + (c.toNat - 48)) 0

/-- Go `strconv.ParseInt(s, 10, 64)` on a decimal literal: an optional sign
followed by at least one digit, and the value must fit in a signed 64-bit
integer, otherwise `none` (an error). -/
def parseInt64 (s : String) : Option Int :=
  let (neg, cs) := match s.toList with
    | '-' :: rest => (true, rest)
    | '+' :: rest => (false, rest)
    | cs => (false, cs)
  if cs ≠ [] ∧ cs.all isDigitChar then
    let n : Int := digitsToNat cs
    let v := if neg then -n else n
    if -(2 ^ 63) ≤ v ∧ v ≤ 2 ^ 63 - 1 then some v else none
  else none

/-- Go `strconv.ParseFloat` on a literal of the form `-?\d+\.?\d*`,
modelled exactly as a rational (IEEE rounding to the nearest float64 is not
modelled; no claim depends on float arithmetic). -/
def parseDecimalRat (s : String) : ℚ :=
  let (neg, cs) := match s.toList with
    | '-' :: rest => (true, rest)
    | cs => (false, cs)
  let intPart := cs.takeWhile isDigitChar
  let fracPart := (cs.dropWhile isDigitChar).drop 1
  let q : ℚ :=
    (digitsToNat intPart : ℚ) + (digitsToNat fracPart : ℚ) / ((10 : ℚ) ^ fracPart.length)
  if neg then -q else q

/-- ASCII lower-casing (the executor lower-cases byte-wise before comparing
with `true` / `false`). -/
def asciiLower (c : Char) : Char :=
  if 'A' ≤ c ∧ c ≤ 'Z' then Char.ofNat (c.toNat + 32) else c

/-- The `toLower` helper of the executor. -/
def lowerString (s : String) : String := String.mk (s.toList.map asciiLower)

/-- The `LiteralExpression.parseLiteral` method: numeric literals become
Integer or Float values, `true` / `false` (case-insensitively) become
Booleans, everything else is Text. -/
def parseLiteral (s : String) : Except String Value :=
  if isNumericLiteral s then
    if containsDecimal s then .ok (.float (.finite (parseDecimalRat s)))
    else
      match parseInt64 s with
      | some i => .ok (.integer i)
      | none => .error ("invalid integer literal: " ++ s)
  else
    let lower := lowerString s
    if lower == "true" then .ok (.boolean true)
    else if lower == "false" then .ok (.boolean false)
    else .ok (.text s)

/-- The executor `getValueAsBool` truthiness coercion: Boolean is itself,
Integer and Float compare against zero with the Go `!=` (so NaN and the
infinities are truthy), Text is non-emptiness, anything else is false. -/
def getValueAsBool : Value → Bool
  | .boolean b => b
  | .integer v => decide (v ≠ 0)
  | .float (.finite q) => decide (q ≠ 0)
  | .float _ => true
  | .text s => decide (s ≠ "")
  | .null => false

/-- IEEE negation on the float model. -/
def FloatVal.fneg : FloatVal → FloatVal
  | .finite q => .finite (-q)
  | .posInf => .negInf
  | .negInf => .posInf
  | .nan => .nan

/-- IEEE addition on the float model (exact on finite values). -/
def FloatVal.fadd : FloatVal → FloatVal → FloatVal
  | .nan, _ => .nan
  | _, .nan => .nan
  | .finite a, .finite b => .finite (a + b)
  | .posInf, .negInf => .nan
  | .negInf, .posInf => .nan
  | .posInf, _ => .posInf
  | .negInf, _ => .negInf
  | .finite _, .posInf => .posInf
  | .finite _, .negInf => .negInf

/-- IEEE subtraction on the float model. -/
def FloatVal.fsub (a b : FloatVal) : FloatVal := a.fadd b.fneg

/-- IEEE multiplication on the float model (exact on finite values;
infinity times zero is NaN). -/
def FloatVal.fmul : FloatVal → FloatVal → FloatVal
  | .nan, _ => .nan
  | _, .nan => .nan
  | .finite a, .finite b => .finite (a * b)
  | .posInf, .posInf => .posInf
  | .posInf, .negInf => .negInf
  | .negInf, .posInf => .negInf
  | .negInf, .negInf => .posInf
  | .posInf, .finite b =>
      if b > 0 then .posInf else if b < 0 then .negInf else .nan
  | .negInf, .finite b =>
      if b > 0 then .negInf else if b < 0 then .posInf else .nan
  | .finite a, .posInf =>
      if a > 0 then .posInf else if a < 0 then .negInf else .nan
  | .finite a, .negInf =>
      if a > 0 then .negInf else if a < 0 then .posInf else .nan

/-- IEEE division on the float model (the executor rejects a zero divisor
before dividing, so the finite-by-zero case is unreachable and mapped to
NaN). -/
def FloatVal.fdiv : FloatVal → FloatVal → FloatVal
  | .nan, _ => .nan
  | _, .nan => .nan
  | .finite a, .finite b => if b = 0 then .nan else .finite (a / b)
  | .finite _, .posInf => .finite 0
  | .finite _, .negInf => .finite 0
  | .posInf, .finite b => if b < 0 then .negInf else .posInf
  | .negInf, .finite b => if b < 0 then .posInf else .negInf
  | _, _ => .nan

/-- Two's-complement wrap-around of Go 64-bit integer arithmetic (`int`
and `int64`): the mathematical result reduced into `[-2^63, 2^63)`. -/
def wrap64 (n : Int) : Int := (n + 2 ^ 63) % 2 ^ 64 - 2 ^ 63

/-- The executor `evaluateArithmeticOp`: Integer by Integer stays Integer
(Go `int64` arithmetic wraps around; division truncates toward zero, and
`MinInt64 / -1` wraps back to `MinInt64`), any Float operand promotes to
Float, a zero divisor is a "division by zero" error, any other operand
kinds are an error. -/
def evaluateArithmeticOp (left : Value) (op : String) (right : Value) :
    Except String Value :=
  match left, right with
  | .integer l, .integer r =>
      if op == "+" then .ok (.integer (wrap64 (l + r)))
      else if op == "-" then .ok (.integer (wrap64 (l - r)))
      else if op == "*" then .ok (.integer (wrap64 (l * r)))
      else if op == "/" then
        if r == 0 then .error "division by zero"
        else .ok (.integer (wrap64 (l.tdiv r)))
      else .error "arithmetic operation not supported"
  | .integer l, .float r =>
      if op == "+" then .ok (.float ((FloatVal.finite (l : ℚ)).fadd r))
      else if op == "-" then .ok (.float ((FloatVal.finite (l : ℚ)).fsub r))
      else if op == "*" then .ok (.float ((FloatVal.finite (l : ℚ)).fmul r))
      else if op == "/" then
        if r.feq (.finite 0) then .error "division by zero"
        else .ok (.float ((FloatVal.finite (l : ℚ)).fdiv r))
      else .error "arithmetic operation not supported"
  | .float l, .integer r =>
      if op == "+" then .ok (.float (l.fadd (.finite (r : ℚ))))
      else if op == "-" then .ok (.float (l.fsub (.finite (r : ℚ))))
      else if op == "*" then .ok (.float (l.fmul (.finite (r : ℚ))))
      else if op == "/" then
        if r == 0 then .error "division by zero"
        else .ok (.float (l.fdiv (.finite (r : ℚ))))
      else .error "arithmetic operation not supported"
  | .float l, .float r =>
      if op == "+" then .ok (.float (l.fadd r))
      else if op == "-" then .ok (.float (l.fsub r))
      else if op == "*" then .ok (.float (l.fmul r))
      else if op == "/" then
        if r.feq (.finite 0) then .error "division by zero"
        else .ok (.float (l.fdiv r))
      else .error "arithmetic operation not supported"
  | _, _ => .error "arithmetic operation not supported"

/-- The executor `evaluateBinaryOp`: comparisons through `Equals` and
`LessThan`, non-short-circuiting truthiness for AND and OR, arithmetic for
`+ - * /`. -/
def evaluateBinaryOp (left : Value) (op : String) (right : Value) :
    Except String Value :=
  if op == "=" || op == "==" then .ok (.boolean (left.equals right))
  else if op == "!=" || op == "<>" then .ok (.boolean (!left.equals right))
  else if op == "<" then .ok (.boolean (left.lessThan right))
  else if op == "<=" then
    .ok (.boolean (left.lessThan right || left.equals right))
  else if op == ">" then
    .ok (.boolean (!left.lessThan right && !left.equals right))
  else if op == ">=" then .ok (.boolean (!left.lessThan right))
  else if op == "AND" then
    .ok (.boolean (getValueAsBool left && getValueAsBool right))
  else if op == "OR" then
    .ok (.boolean (getValueAsBool left || getValueAsBool right))
  else if op == "+" || op == "-" || op == "*" || op == "/" then
    evaluateArithmeticOp left op right
  else .error ("unsupported binary operator: " ++ op)

/-- The executor `evaluateUnaryOp`: truthiness negation for NOT, numeric
negation for unary minus. -/
def evaluateUnaryOp (op : String) (right : Value) : Except String Value :=
  if op == "NOT" then .ok (.boolean (!getValueAsBool right))
  else if op == "-" then
    match right with
    | .integer v => .ok (.integer (wrap64 (-v)))
    | .float v => .ok (.float v.fneg)
    | _ => .error "unary minus not supported"
  else .error ("unsupported unary operator: " ++ op)

/-- The executor `evaluateExpressionForRow`.  The Go function receives the
table but uses only its schema; a column reference ignores its table
qualifier here and resolves the bare column name, and without a row context
(`evaluateExpression` passes nil) it is an error. -/
def evalExprForRow (sch : Schema) (row : Option Row) : Expr → Except String Value
  | .literal s => parseLiteral s
  | .nullLit => .ok .null
  | .colRef _ column =>
      match row with
      | none => .error "cannot evaluate column reference without row context"
      | some r =>
          let colIdx := sch.columnIndex column
          if colIdx < 0 then .error ("column not found: " ++ column)
          else rowGet r colIdx
  | .binary l op r => do
      let lv ← evalExprForRow sch row l
      let rv ← evalExprForRow sch row r
      evaluateBinaryOp lv op rv
  | .unary op r => do
      let rv ← evalExprForRow sch row r
      evaluateUnaryOp op rv

/-- The executor `evaluateExpression`: evaluation with no row context. -/
def evaluateExpression (sch : Schema) (e : Expr) : Except String Value :=
  evalExprForRow sch none e

/-- The executor `buildPredicate`: a missing WHERE is constantly true;
otherwise the row passes exactly when evaluation succeeds with a
`BooleanValue` holding true — evaluation errors and every non-Boolean
result reject the row. -/
def buildPredicate (sch : Schema) (expr : Option Expr) : Row → Bool :=
  match expr with
  | none => fun _ => true
  | some e => fun row =>
      match evalExprForRow sch (some row) e with
      | .ok (.boolean b) => b
      | _ => false

/-! ### Claim C5: WHERE predicate semantics for UPDATE and DELETE -/

/-- C5 counterexample: the WHERE expression `1` evaluates to the Integer 1,
which is truthy under `getValueAsBool`, yet the compiled predicate rejects
the row, because `buildPredicate` accepts only a `BooleanValue` holding
true. -/
theorem C5_truthy_nonboolean_rejected :
    buildPredicate ⟨[]⟩ (some (.literal "1")) [] = false ∧
    evalExprForRow ⟨[]⟩ (some []) (.literal "1") = .ok (.integer 1) ∧
    getValueAsBool (.integer 1) = true := by
  refine ⟨?_, ?_, rfl⟩ <;> decide

/-- C5 (amended): a missing WHERE accepts every row; otherwise the compiled
predicate accepts exactly the rows on which the WHERE expression evaluates
without error to a Boolean with value true — the truthiness coercion is not
applied, so non-Boolean results (and evaluation errors) reject the row. -/
theorem C5_predicate_boolean_only (sch : Schema) (e : Expr) (row : Row) :
    buildPredicate sch none row = true ∧
    (buildPredicate sch (some e) row = true ↔
      evalExprForRow sch (some row) e = .ok (.boolean true)) := by
  refine ⟨rfl, ?_⟩
  cases h : evalExprForRow sch (some row) e with
  | error err => simp [buildPredicate, h]
  | ok v => cases v <;> simp [buildPredicate, h]

/-! ### B-tree index (internal/storage)

The Go `bTreeNode` holds parallel `keys` and (for leaves) `rowPtrs`
vectors plus a `children` vector; internal nodes are created with an empty
`rowPtrs`.  Go slice mutations through child pointers are rendered by
rebuilding the parent with the updated child.  Go runtime panics from
out-of-range slice indexing are modelled explicitly where they are
reachable (`rowPtrs[i]` on an internal node); unreachable index accesses
use a default value and are commented. -/
inductive BNode where
  | mk (keys : List Value) (children : List BNode) (isLeaf : Bool)
      (rowPtrs : List Int)

def BNode.keys : BNode → List Value
  | .mk k _ _ _ => k

def BNode.children : BNode → List BNode
  | .mk _ c _ _ => c

def BNode.isLeaf : BNode → Bool
  | .mk _ _ l _ => l

def BNode.rowPtrs : BNode → List Int
  | .mk _ _ _ p => p

instance : Inhabited BNode := ⟨.mk [] [] true []⟩

mutual

/-- Total number of nodes; used as recursion fuel (it bounds the tree
depth, which is what the Go recursions descend along). -/
def BNode.size : BNode → Nat
  | .mk _ children _ _ => 1 + BNode.sizeList children

/-- Sum of node counts of a list of nodes. -/
def BNode.sizeList : List BNode → Nat
  | [] => 0
  | n :: rest => BNode.size n + BNode.sizeList rest

end

/-- The `BTree` structure: a root node and the minimum degree
(`order`, default 4). -/
structure BTree where
  root : BNode
  order : Nat

/-- `NewBTree`: an empty leaf root with the default order 4. -/
def NewBTree : BTree := ⟨.mk [] [] true [], 4⟩

/-- Length of the maximal suffix of `keys` whose elements `k` satisfy
`key.LessThan(k)`: the Go insertion loops walk from the right while
`key.LessThan(node.keys[i])` holds. -/
def trailingGreater (key : Value) (keys : List Value) : Nat :=
  (keys.reverse.takeWhile (fun k => key.lessThan k)).length

/-- Length of the maximal prefix of `keys` whose elements `k` satisfy
`key.LessThan(k)`: the Go lookup loop walks from the left while
`key.LessThan(node.keys[i])` holds. -/
def leadingGreater (key : Value) (keys : List Value) : Nat :=
  (keys.takeWhile (fun k => key.lessThan k)).length

/-- The `splitChild` method: split the full child `children[i]` around its
key at position `order-1`, which moves up into the parent at position `i`,
with the upper half becoming a new child at position `i+1`.  The child is
always present with `2*order-1` keys at every call site, so the default
values of the two indexed reads are unreachable. -/
def splitChild (order : Nat) (parent : BNode) (i : Nat) : BNode :=
  let t := parent.children.getD i default
  let midKey := t.keys.getD (order - 1) .null
  let newNode : BNode := .mk (t.keys.drop order)
    (if t.isLeaf then [] else t.children.drop order) t.isLeaf
    (if t.isLeaf then t.rowPtrs.drop order else [])
  let tNew : BNode := .mk (t.keys.take (order - 1))
    (if t.isLeaf then t.children else t.children.take order) t.isLeaf
    (if t.isLeaf then t.rowPtrs.take (order - 1) else t.rowPtrs)
  .mk (parent.keys.take i ++ midKey :: parent.keys.drop i)
    (parent.children.take i ++ tNew :: newNode :: parent.children.drop (i + 1))
    parent.isLeaf parent.rowPtrs

/-- The `insertNonFull` method.  In a leaf the Go loop shifts keys and
row pointers right from the end while `key.LessThan(keys[i])`, inserting at
the stopping position; in an internal node the same right-to-left walk
chooses the child, a full child is split first, after which insertion of a
key equal to the promoted key returns without inserting, and
`key.LessThan(node.keys[i])` (sic) moves one child to the right. -/
def insertNonFull (order : Nat) : Nat → BNode → Value → Int → BNode
  | 0, node, _, _ => node
  | fuel + 1, node, key, ptr =>
    if node.isLeaf then
      let pos := node.keys.length - trailingGreater key node.keys
      .mk (node.keys.take pos ++ key :: node.keys.drop pos) node.children
        node.isLeaf (node.rowPtrs.take pos ++ ptr :: node.rowPtrs.drop pos)
    else
      let i := node.keys.length - trailingGreater key node.keys
      if (node.children.getD i default).keys.length ≥ 2 * order - 1 then
        let node2 := splitChild order node i
        if key.equals (node2.keys.getD i .null) then node2
        else
          let i2 := if key.lessThan (node2.keys.getD i .null) then i + 1 else i
          .mk node2.keys
            (node2.children.set i2
              (insertNonFull order fuel (node2.children.getD i2 default) key ptr))
            node2.isLeaf node2.rowPtrs
      else
        .mk node.keys
          (node.children.set i
            (insertNonFull order fuel (node.children.getD i default) key ptr))
          node.isLeaf node.rowPtrs

/-- `BTree.Insert`: split a full root below a fresh internal root, then
descend with `insertNonFull`.  The Go nil-root branch is unreachable
(`NewBTree` always creates a root and no operation clears it).  The node
count is passed as fuel; it bounds the descent depth. -/
def BTree.insert (bt : BTree) (key : Value) (rowPtr : Int) : BTree :=
  if bt.root.keys.length ≥ 2 * bt.order - 1 then
    let newRoot : BNode := .mk [] [bt.root] false []
    let newRoot2 := splitChild bt.order newRoot 0
    { bt with root := insertNonFull bt.order newRoot2.size newRoot2 key rowPtr }
  else
    { bt with root := insertNonFull bt.order bt.root.size bt.root key rowPtr }

/-- Outcome of `BTree.Lookup`: the Go method returns `([]int{p}, true)` on
an equality hit, `(nil, false)` on a miss, and panics with an index
out-of-range when the hit is at an internal node, whose `rowPtrs` is
empty. -/
inductive LookupResult where
  | found (ptr : Int)
  | notFound
  | outOfRange
  deriving DecidableEq, Repr

/-- The recursive `lookup` helper: walk from the left past keys `k` with
`key.LessThan(k)`, return the parallel row pointer on equality, fail at a
leaf, else recurse into `children[i]`. -/
def BNode.lookupGo : Nat → BNode → Value → LookupResult
  | 0, _, _ => .notFound
  | fuel + 1, node, key =>
    let i := leadingGreater key node.keys
    if i < node.keys.length && key.equals (node.keys.getD i .null) then
      match node.rowPtrs.get? i with
      | some p => .found p
      | none => .outOfRange
    else if node.isLeaf then .notFound
    else
      match node.children.get? i with
      | some c => BNode.lookupGo fuel c key
      | none => .outOfRange

/-- `BTree.Lookup`. -/
def BTree.lookup (bt : BTree) (key : Value) : LookupResult :=
  BNode.lookupGo (bt.root.size + 1) bt.root key

/-- The recursive `containsKey` helper used by `Delete`: the same walk as
`lookup`, returning only presence. -/
def BNode.containsKeyGo : Nat → BNode → Value → Bool
  | 0, _, _ => false
  | fuel + 1, node, key =>
    let i := leadingGreater key node.keys
    if i < node.keys.length && key.equals (node.keys.getD i .null) then true
    else if node.isLeaf then false
    else
      match node.children.get? i with
      | some c => BNode.containsKeyGo fuel c key
      | none => false

/-- The recursive `scan` helper of `ScanAll`: in-order traversal emitting
`rowPtrs[i]` after each subtree.  On an internal node `rowPtrs` is empty,
so the Go code panics (`none` here) as soon as the traversal reaches an
internal node with at least one key. -/
def BNode.scanGo : Nat → BNode → Option (List Int)
  | 0, _ => some []
  | fuel + 1, node => do
    let parts ← (List.range node.keys.length).mapM (fun i => do
      let sub ←
        if node.isLeaf then some []
        else
          match node.children.get? i with
          | some c => BNode.scanGo fuel c
          | none => none
      let p ← node.rowPtrs.get? i
      pure (sub ++ [p]))
    let last ←
      if node.isLeaf then some []
      else
        match node.children.get? node.keys.length with
        | some c => BNode.scanGo fuel c
        | none => none
    pure (parts.join ++ last)

/-- `BTree.ScanAll` (`none` models the Go runtime panic). -/
def BTree.scanAll (bt : BTree) : Option (List Int) :=
  BNode.scanGo (bt.root.size + 1) bt.root

/-- Insert the Integer keys `1..n` in ascending order, each with its own
value as the row pointer. -/
def btreeOfRange (n : Nat) : BTree :=
  ((List.range n).map (fun k => (k : Int) + 1)).foldl
    (fun t k => t.insert (.integer k) k) NewBTree

/-! ### Claim C1: B-tree lookup of present keys -/

/-- C1: the code evaluated at failing inputs.  The claim (and the spec's
lookup description) requires `Lookup` to walk past keys strictly less than
the target and succeed on every present key; the Go loop instead walks
while `key.LessThan(node.keys[i])`, i.e. past keys strictly greater than
the target.  After inserting keys 1 and 2 into an empty tree both keys are
present (the root is the leaf `[1, 2]` and `scan_all` emits both row
pointers), yet `Lookup(2)` reports not-found.  After inserting 1..8 the
root is internal with key 4 and an empty `rowPtrs`, so `Lookup(4)` hits the
out-of-range panic and `ScanAll` panics as well. -/
theorem C1_lookup_misses_present_key :
    (((NewBTree.insert (.integer 1) 1).insert (.integer 2) 2).root.keys
        = [.integer 1, .integer 2]) ∧
    ((NewBTree.insert (.integer 1) 1).insert (.integer 2) 2).scanAll
        = some [1, 2] ∧
    ((NewBTree.insert (.integer 1) 1).insert (.integer 2) 2).lookup
        (.integer 2) = .notFound ∧
    ((NewBTree.insert (.integer 1) 1).insert (.integer 2) 2).lookup
        (.integer 1) = .found 1 ∧
    (btreeOfRange 8).root.keys = [.integer 4] ∧
    (btreeOfRange 8).lookup (.integer 4) = .outOfRange ∧
    (btreeOfRange 8).lookup (.integer 5) = .notFound ∧
    (btreeOfRange 8).scanAll = none := by
  decide

/-! ### Tables (internal/storage/table.go)

The table model carries the row vector, the schema, the row-id sequence,
the foreign keys, and the key set of the `Indexes` map.  Index contents are
not modelled: no operation used by the claims reads them back (the SQL
executor never consults `Indexes`), `BTree.Insert` always returns nil so
the index-failure rollback branch of `Table.Insert` is dead code, and index
mutation cannot affect rows or the sequence. -/
structure ForeignKey where
  columns : List String
  refTable : String
  refColumns : List String
  onDelete : String
  onUpdate : String
  deriving DecidableEq, Repr

/-- The `Table` structure (mutex omitted; all operations hold it for their
whole body, so each operation is one atomic step on this state). -/
structure Table where
  name : String
  schema : Schema
  rows : List Row
  indexes : List String
  rowIDSeq : Int
  foreignKeys : List ForeignKey
  deriving DecidableEq, Repr

instance : Inhabited Column := ⟨⟨"", .tNull, false, false, false, none⟩⟩

/-- `NewTable`: empty rows and indexes, sequence 1, no foreign keys. -/
def NewTable (name : String) (schema : Schema) : Table :=
  ⟨name, schema, [], [], 1, []⟩

/-- Index of the first primary-key column (`-1` when there is none): the
initial loop of `Table.Insert`. -/
def Schema.pkColIndex (s : Schema) : Int :=
  match s.columns.findIdx? (fun c => c.primaryKey) with
  | some i => (i : Int)
  | none => -1

/-- Read a row slot the way Go reads `row.Get` results whose error is
discarded: the error case yields the nil interface, which in every use
below is only compared with `Equals` (false against nil) or ignored; the
out-of-bounds case is modelled as Null and is unreachable at call sites
that index a full-length row with a valid column index. -/
def rowGetOr (r : Row) (i : Int) : Value :=
  match rowGet r i with
  | .ok v => v
  | .error _ => .null

/-- Go `val.Equals(existingVal)` where `existingVal, _ := row.Get(i)`
may have failed: a nil interface compares unequal to everything. -/
def valEqualsAt (val : Value) (r : Row) (i : Int) : Bool :=
  match rowGet r i with
  | .ok w => val.equals w
  | .error _ => false

/-- Steps 1 of `Table.Insert`: when the table has a primary-key column and
the incoming row has a Null there (or is too short to reach it), extend the
row up to the primary-key slot and assign it the current sequence value as
an Integer.  Returns the row and the `isPKNull` flag. -/
def insertAutoAssign (t : Table) (row : Row) : Row × Bool :=
  let pkColIndex := t.schema.pkColIndex
  let isPKNull :=
    if pkColIndex != -1 then
      if pkColIndex < (row.length : Int) then
        match rowGet row pkColIndex with
        | .ok v => v.typeOf == .tNull
        | .error _ => false
      else true
    else false
  if isPKNull then
    let row1 :=
      if pkColIndex ≥ (row.length : Int) then
        row ++ List.replicate (pkColIndex.toNat + 1 - row.length) Value.null
      else row
    (rowSet row1 pkColIndex (.integer t.rowIDSeq), true)
  else (row, false)

/-- The sequence advance on a rejected duplicate primary key: a manually
inserted integer value `≥` the sequence pulls the sequence up to it even
though the insert fails. -/
def dupSeqBump (seq : Int) (val : Value) : Int :=
  match val with
  | .integer v => if v ≥ seq then v else seq
  | _ => seq

/-- The per-column validation loop of `Table.Insert` over
`t.Schema.Columns` from position `i`: type check, NOT NULL check (waived
for the primary key, whose Null was auto-assigned), duplicate scan for
primary-key and unique columns.  Returns the first error message together
with the sequence value after the error (the duplicate-primary-key branch
advances the sequence to a manually inserted integer value that is `≥` the
sequence before failing). -/
def insertCheckCols (t : Table) (row : Row) : List Column → Nat → Option (String × Int)
  | [], _ => none
  | col :: restCols, i =>
    if i ≥ row.length then insertCheckCols t row restCols (i + 1)
    else if (row.getD i .null).typeOf != col.type &&
        (row.getD i .null).typeOf != .tNull then
      some ("type mismatch for column " ++ col.name, t.rowIDSeq)
    else if col.notNull && (row.getD i .null).typeOf == .tNull &&
        !col.primaryKey then
      some ("column " ++ col.name ++ " cannot be null", t.rowIDSeq)
    else if col.primaryKey && (row.getD i .null).typeOf != .tNull &&
        t.rows.any (fun er =>
          valEqualsAt (row.getD i .null) er (t.schema.columnIndex col.name)) then
      some ("primary key violation: duplicate value",
        dupSeqBump t.rowIDSeq (row.getD i .null))
    else if col.unique && (row.getD i .null).typeOf != .tNull &&
        t.rows.any (fun er =>
          valEqualsAt (row.getD i .null) er (t.schema.columnIndex col.name)) then
      some ("unique constraint violation: duplicate value", t.rowIDSeq)
    else insertCheckCols t row restCols (i + 1)

/-- The `checkForeignKey` method: it only gathers the local values and can
fail only through a `Row.Get` bounds error (a foreign-key column name
missing from the schema gives index `-1`); it performs no referential
check. -/
def checkForeignKey (t : Table) (row : Row) (fk : ForeignKey) : Option String :=
  fk.columns.findSome? (fun colName =>
    match rowGet row (t.schema.columnIndex colName) with
    | .ok _ => none
    | .error e => some e)

/-- Step 7 of `Table.Insert`: extend a short row to schema length, taking
each missing column's default when present and Null otherwise.  (In Go the
no-default slot is left as a nil interface when it is the auto-assigned
primary-key position, but that position is always `< row.length` here, so
the nil is unreachable and the branch collapses to Null.) -/
def insertFillDefaults (t : Table) (row : Row) : Row :=
  if row.length < t.schema.columns.length then
    row ++ (t.schema.columns.drop row.length).map (fun col =>
      match col.defaultVal with
      | some d => d
      | none => Value.null)
  else row

/-- The sequence adjustment before the append: a primary-key integer value
`≥` the sequence pulls the sequence up to it. -/
def insertAdjustSeq (t : Table) (finalRow : Row) : Int :=
  if t.schema.pkColIndex != -1 then
    match rowGet finalRow t.schema.pkColIndex with
    | .ok (.integer v) => if v ≥ t.rowIDSeq then v else t.rowIDSeq
    | _ => t.rowIDSeq
  else t.rowIDSeq

/-- `Table.Insert`.  The final `t.RowIDSeq++` is Go `int` arithmetic and
wraps around (`wrap64`).  The final index-maintenance loop inserts the
non-null indexed values into each index and cannot fail (`BTree.Insert`
always returns nil), so the rollback branch is dead; index contents are
not part of this model. -/
def Table.insert (t : Table) (row0 : Row) : Table × Except String Int :=
  let ra := insertAutoAssign t row0
  let row := ra.1
  let isPKNull := ra.2
  if row.length > t.schema.columns.length then
    (t, .error "row column count exceeds schema")
  else
    match insertCheckCols t row t.schema.columns 0 with
    | some (msg, seq2) => ({ t with rowIDSeq := seq2 }, .error msg)
    | none =>
      match t.foreignKeys.findSome? (checkForeignKey t row) with
      | some e => (t, .error ("foreign key constraint violation: " ++ e))
      | none =>
        let finalRow := insertFillDefaults t row
        let seqAdj := insertAdjustSeq t finalRow
        let rowIDToReturn := if isPKNull then seqAdj else wrap64 (seqAdj - 1)
        ({ t with
            rows := t.rows ++ [finalRow]
            rowIDSeq := wrap64 (seqAdj + 1) },
          .ok rowIDToReturn)

/-- A Go nil predicate matches every row (`predicate == nil || predicate(row)`). -/
def predMatch (pred : Option (Row → Bool)) (r : Row) : Bool :=
  match pred with
  | none => true
  | some p => p r

/-- `Table.Select`: the rows matching the predicate (a nil predicate
matches everything).  In Go the result is a vector of deep clones; in this
value-level model a clone is the same value, and the aliasing content of
the deep-clone guarantee is treated separately in the heap model below. -/
def Table.select (t : Table) (pred : Option (Row → Bool)) : List Row :=
  t.rows.filter (predMatch pred)

/-- Structured form of the two `Table.Update` rejection errors (the Go
message renders the offending column name or value; only the kind and the
column are kept here, the code never inspects the text). -/
inductive UpdErr where
  | pk (col : String)
  | unique (val : Value)
  deriving DecidableEq, Repr

/-- The primary-key loop of `Table.Update`: after the in-place mutation,
every primary-key column must compare `Equals` to its pre-image. -/
def updateCheckPK (sch : Schema) (newRow oldRow : Row) : Option String :=
  sch.columns.findSome? (fun col =>
    if col.primaryKey &&
        !((rowGetOr newRow (sch.columnIndex col.name)).equals
          (rowGetOr oldRow (sch.columnIndex col.name))) then
      some col.name
    else none)

/-- The unique loop of `Table.Update`: a changed unique value must not
collide with the value any other row currently has in that column (rows
before the current index are already mutated, rows after are not). -/
def updateCheckUnique (sch : Schema) (allRows : List Row) (i : Nat)
    (newRow oldRow : Row) : Option Value :=
  sch.columns.findSome? (fun col =>
    if col.unique then
      let colIndex := sch.columnIndex col.name
      let newVal := rowGetOr newRow colIndex
      let oldVal := rowGetOr oldRow colIndex
      if !newVal.equals oldVal &&
          allRows.enum.any (fun p =>
            p.1 ≠ i && newVal.equals (rowGetOr p.2 colIndex)) then
        some newVal
      else none
    else none)

/-- The `Table.Update` loop.  `before` holds the rows already processed
(matched rows already mutated in place, exactly as the Go slice is left);
on a rejection the error is returned with the current row also already
mutated and the remaining rows untouched. -/
def updateLoop (sch : Schema) (pred : Option (Row → Bool)) (upd : Row → Row) :
    List Row → List Row → Nat → Int → List Row × Except UpdErr Int
  | before, [], _, updated => (before, .ok updated)
  | before, r :: rest, i, updated =>
    if predMatch pred r then
      let r2 := upd r
      let cur := before ++ r2 :: rest
      match updateCheckPK sch r2 r with
      | some c => (cur, .error (.pk c))
      | none =>
        match updateCheckUnique sch cur i r2 r with
        | some v => (cur, .error (.unique v))
        | none => updateLoop sch pred upd (before ++ [r2]) rest (i + 1) (updated + 1)
    else updateLoop sch pred upd (before ++ [r]) rest (i + 1) updated

/-- `Table.Update` with the structured error. -/
def Table.updateE (t : Table) (pred : Option (Row → Bool)) (upd : Row → Row) :
    Table × Except UpdErr Int :=
  let res := updateLoop t.schema pred upd [] t.rows 0 0
  ({ t with rows := res.1 }, res.2)

/-- `Table.Update` with the Go error strings. -/
def Table.update (t : Table) (pred : Option (Row → Bool)) (upd : Row → Row) :
    Table × Except String Int :=
  match t.updateE pred upd with
  | (t2, .ok n) => (t2, .ok n)
  | (t2, .error (.pk c)) =>
      (t2, .error ("cannot update primary key column " ++ c))
  | (t2, .error (.unique _)) =>
      (t2, .error "unique constraint violation: duplicate value")

/-- `Table.Delete`: drop every matched row (deleting its indexed values
from each index, which this model does not track) and return the count. -/
def Table.delete (t : Table) (pred : Option (Row → Bool)) : Table × Int :=
  ({ t with rows := t.rows.filter (fun r => !predMatch pred r) },
    (t.rows.filter (predMatch pred)).length)

/-- `Table.Truncate`: empty the rows, reset the sequence to 1, and replace
every index with an empty one (the key set of the index map is kept). -/
def Table.truncate (t : Table) : Table :=
  { t with rows := [], rowIDSeq := 1 }

/-- `Table.AddIndex`: reject an unknown column or an existing index, else
register the index (and backfill it, which this model does not track). -/
def Table.addIndex (t : Table) (columnName : String) : Table × Option String :=
  if t.schema.columns.all (fun c => c.name != columnName) then
    (t, some ("column " ++ columnName ++ " not found"))
  else if t.indexes.contains columnName then
    (t, some ("index on column " ++ columnName ++ " already exists"))
  else ({ t with indexes := t.indexes ++ [columnName] }, none)

/-! ### Claim C2: the row-id sequence invariant -/

/-- The invariant as claimed: `row_id_sequence` strictly exceeds every
non-null integer value stored in any primary-key column of any row. -/
def seqInvariant (t : Table) : Prop :=
  ∀ r ∈ t.rows, ∀ i : Nat, i < t.schema.columns.length →
    (t.schema.columns.getD i default).primaryKey = true →
    ∀ v : Int, r.getD i .null = .integer v → v < t.rowIDSeq

/-- States reachable through the public table operations (select reads no
state). -/
inductive Reach : Table → Prop where
  | init (name : String) (sch : Schema) : Reach (NewTable name sch)
  | insert (t : Table) (r : Row) : Reach t → Reach (t.insert r).1
  | update (t : Table) (p : Option (Row → Bool)) (u : Row → Row) :
      Reach t → Reach (t.updateE p u).1
  | delete (t : Table) (p : Option (Row → Bool)) : Reach t →
      Reach (t.delete p).1
  | truncate (t : Table) : Reach t → Reach t.truncate
  | addIndex (t : Table) (c : String) : Reach t → Reach (t.addIndex c).1

/-- A one-column table `t(id INTEGER PRIMARY KEY)` after inserting the row
`(1)` and then running the update every SQL `UPDATE t SET id = 5` compiles
to: the update is rejected, but the row was already mutated in place. -/
def c2Table : Table :=
  ((((NewTable "t" ⟨[⟨"id", .tInteger, true, false, false, none⟩]⟩).insert
      [.integer 1]).1).updateE (some (fun _ => true))
    (fun r => rowSet r 0 (.integer 5))).1

/-- C2 counterexample: `c2Table` is reachable (insert then a rejected
primary-key update), holds the row `(5)` with `row_id_sequence = 2`, and
violates the claimed invariant. -/
theorem C2_counterexample :
    Reach c2Table ∧ c2Table.rows = [[.integer 5]] ∧ c2Table.rowIDSeq = 2 ∧
    ¬ seqInvariant c2Table := by
  refine ⟨Reach.update _ _ _ (Reach.insert _ _ (Reach.init _ _)),
    by decide, by decide, fun hinv => ?_⟩
  have h5 := hinv [.integer 5] (by decide) 0 (by decide) (by decide) 5 (by decide)
  have h2 : c2Table.rowIDSeq = 2 := by decide
  omega

/-- Distinct column names; under this, `ColumnIndex` applied to a schema
column's own name returns that column's position. -/
def wfSchema (sch : Schema) : Prop := (sch.columns.map Column.name).Nodup

/-- The amended invariant: the sequence strictly exceeds every non-null
integer value stored in the first primary-key column. -/
def pkSeqInvariant (t : Table) : Prop :=
  ∀ r ∈ t.rows, ∀ v : Int, t.schema.pkColIndex ≠ -1 →
    r.getD t.schema.pkColIndex.toNat .null = .integer v → v < t.rowIDSeq

theorem pkColIndex_spec {sch : Schema} (h : sch.pkColIndex ≠ -1) :
    0 ≤ sch.pkColIndex ∧ sch.pkColIndex.toNat < sch.columns.length ∧
      (sch.columns.getD sch.pkColIndex.toNat default).primaryKey = true := by
  unfold Schema.pkColIndex at h ⊢
  cases hf : sch.columns.findIdx? (fun c => c.primaryKey) with
  | none => simp [hf] at h
  | some i =>
    simp only [hf]
    rw [List.findIdx?_eq_some_iff_getElem] at hf
    obtain ⟨hlen, hp, _⟩ := hf
    refine ⟨by omega, by simpa using hlen, ?_⟩
    simpa [List.getD_eq_getElem?_getD, List.getElem?_eq_getElem hlen] using hp

theorem equals_integer_iff (w : Value) (v : Int) :
    Value.equals (.integer v) w = true ↔ w = .integer v := by
  cases w <;> simp [Value.equals]
  exact eq_comm

theorem rowGet_eq_ok {r : Row} {i : Int} (h0 : 0 ≤ i)
    (hl : i < (r.length : Int)) :
    rowGet r i = .ok (r.getD i.toNat .null) := by
  unfold rowGet; rw [if_pos ⟨h0, hl⟩]

theorem getD_integer_lt_length {r : Row} {k : Nat} {v : Int}
    (h : r.getD k .null = .integer v) : k < r.length := by
  by_contra hk
  push_neg at hk
  rw [List.getD_eq_getElem?_getD, List.getElem?_eq_none (by omega)] at h
  simp at h

theorem rowGetOr_eq_getD {r : Row} {i : Int} (h0 : 0 ≤ i)
    (hl : i < (r.length : Int)) :
    rowGetOr r i = r.getD i.toNat .null := by
  unfold rowGetOr; rw [rowGet_eq_ok h0 hl]

theorem le_dupSeqBump (seq : Int) (val : Value) : seq ≤ dupSeqBump seq val := by
  cases val <;> simp [dupSeqBump] <;> split <;> omega

theorem insertCheckCols_seq_le (t : Table) (row : Row) :
    ∀ cols i res, insertCheckCols t row cols i = some res →
      t.rowIDSeq ≤ res.2 := by
  intro cols
  induction cols with
  | nil => intro i res h; simp [insertCheckCols] at h
  | cons col rest ih =>
    intro i res h
    rw [insertCheckCols] at h
    split at h
    · exact ih _ _ h
    · split at h
      · cases h; exact le_refl _
      · split at h
        · cases h; exact le_refl _
        · split at h
          · cases h; exact le_dupSeqBump _ _
          · split at h
            · cases h; exact le_refl _
            · exact ih _ _ h

theorem le_insertAdjustSeq (t : Table) (fr : Row) :
    t.rowIDSeq ≤ insertAdjustSeq t fr := by
  unfold insertAdjustSeq
  split
  · split
    · split <;> omega
    · omega
  · omega

theorem insertAdjustSeq_ge (t : Table) (fr : Row) (v : Int)
    (hne : (t.schema.pkColIndex != -1) = true)
    (hv : rowGet fr t.schema.pkColIndex = .ok (.integer v)) :
    v ≤ insertAdjustSeq t fr := by
  unfold insertAdjustSeq
  rw [if_pos hne, hv]
  show v ≤ if v ≥ t.rowIDSeq then v else t.rowIDSeq
  split <;> omega

/-- The three shapes an insert can leave the table in: unchanged (length or
foreign-key error), sequence bumped by a rejected duplicate primary key, or
the row appended with the adjusted sequence plus one. -/
theorem insert_state_cases (t : Table) (r0 : Row) :
    (t.insert r0).1 = t ∨
    (∃ res, insertCheckCols t (insertAutoAssign t r0).1 t.schema.columns 0
        = some res ∧ (t.insert r0).1 = { t with rowIDSeq := res.2 }) ∨
    (∃ fr, fr = insertFillDefaults t (insertAutoAssign t r0).1 ∧
      (t.insert r0).1
        = { t with
            rows := t.rows ++ [fr]
            rowIDSeq := wrap64 (insertAdjustSeq t fr + 1) }) := by
  simp only [Table.insert]
  split
  · exact .inl rfl
  · split
    · rename_i msg seq2 hres
      exact .inr (.inl ⟨(msg, seq2), hres, rfl⟩)
    · split
      · exact .inl rfl
      · exact .inr (.inr ⟨_, rfl, rfl⟩)

theorem insert_pkSeqInvariant (t : Table) (r0 : Row) (hI : pkSeqInvariant t)
    (hnof : wrap64 (insertAdjustSeq t
        (insertFillDefaults t (insertAutoAssign t r0).1) + 1)
      = insertAdjustSeq t (insertFillDefaults t (insertAutoAssign t r0).1)
        + 1) :
    pkSeqInvariant (t.insert r0).1 := by
  rcases insert_state_cases t r0 with h | ⟨res, hres, h⟩ | ⟨fr, hfr, h⟩
  · rw [h]; exact hI
  · rw [h]
    intro r hr v hpk hv
    dsimp only at hr hpk hv ⊢
    have := hI r hr v hpk hv
    have := insertCheckCols_seq_le t _ _ _ _ hres
    omega
  · rw [← hfr] at hnof
    rw [h]
    intro r hr v hpk hv
    dsimp only at hr hpk hv ⊢
    rw [hnof]
    rcases List.mem_append.1 hr with hr | hr
    · have := hI r hr v hpk hv
      have := le_insertAdjustSeq t fr
      omega
    · have hrfr : r = fr := by simpa using hr
      subst hrfr
      obtain ⟨h0, hlt, hpkcol⟩ := pkColIndex_spec hpk
      have hklen : t.schema.pkColIndex.toNat < r.length :=
        getD_integer_lt_length hv
      have hok : rowGet r t.schema.pkColIndex = .ok (.integer v) := by
        rw [rowGet_eq_ok h0 (by omega), hv]
      have := insertAdjustSeq_ge t r v (by simpa using hpk) hok
      omega

theorem rowGetOr_oob {r : Row} {i : Int} (h : ¬(0 ≤ i ∧ i < (r.length : Int))) :
    rowGetOr r i = .null := by
  unfold rowGetOr rowGet
  rw [if_neg h]

theorem columnIndex_of_nodup (sch : Schema) (hwf : wfSchema sch)
    (k : Nat) (hk : k < sch.columns.length) :
    sch.columnIndex (sch.columns.getD k default).name = (k : Int) := by
  unfold Schema.columnIndex
  have hfind : sch.columns.findIdx?
      (fun c => c.name == (sch.columns.getD k default).name) = some k := by
    rw [List.findIdx?_eq_some_iff_getElem]
    refine ⟨hk, ?_, ?_⟩
    · simp [List.getD_eq_getElem?_getD, List.getElem?_eq_getElem hk]
    · intro j hj
      have hj2 : j < sch.columns.length := by omega
      simp only [List.getD_eq_getElem?_getD, List.getElem?_eq_getElem hk,
        Option.getD_some, beq_iff_eq]
      intro heq
      have hlen2 : j < (sch.columns.map Column.name).length := by simpa using hj2
      have hlen3 : k < (sch.columns.map Column.name).length := by simpa using hk
      have hmap : (sch.columns.map Column.name)[j]
          = (sch.columns.map Column.name)[k] := by
        simpa [List.getElem_map] using heq
      have := (List.Nodup.getElem_inj_iff hwf).1 hmap
      omega
  rw [hfind]

theorem updateCheckPK_none_pk (sch : Schema) (hwf : wfSchema sch)
    (newRow oldRow : Row) (h : updateCheckPK sch newRow oldRow = none)
    (hpk : sch.pkColIndex ≠ -1) :
    (rowGetOr newRow sch.pkColIndex).equals
      (rowGetOr oldRow sch.pkColIndex) = true := by
  obtain ⟨h0, hlt, hpkcol⟩ := pkColIndex_spec hpk
  unfold updateCheckPK at h
  rw [List.findSome?_eq_none_iff] at h
  have hmem : sch.columns.getD sch.pkColIndex.toNat default ∈ sch.columns := by
    rw [List.getD_eq_getElem?_getD, List.getElem?_eq_getElem hlt]
    exact List.getElem_mem hlt
  have hcol := h _ hmem
  rw [columnIndex_of_nodup sch hwf _ hlt] at hcol
  have htn : ((sch.pkColIndex.toNat : Nat) : Int) = sch.pkColIndex := by omega
  rw [htn] at hcol
  by_contra hne
  rw [Bool.not_eq_true] at hne
  simp only [hne, Bool.not_false, Bool.and_true] at hcol
  rw [List.getD_eq_getElem?_getD] at hpkcol
  simp [hpkcol] at hcol

theorem updateLoop_rows_spec (sch : Schema) (p : Option (Row → Bool))
    (u : Row → Row) :
    ∀ (rest before : List Row) (i : Nat) (updated : Int),
      (∀ c, (updateLoop sch p u before rest i updated).2 ≠ .error (.pk c)) →
      ∀ r ∈ (updateLoop sch p u before rest i updated).1,
        r ∈ before ∨ r ∈ rest ∨
          ∃ r0 ∈ rest, r = u r0 ∧ updateCheckPK sch (u r0) r0 = none := by
  intro rest
  induction rest with
  | nil =>
    intro before i updated hnp r hr
    rw [updateLoop] at hr
    exact .inl hr
  | cons r0 rest ih =>
    intro before i updated hnp r hr
    rw [updateLoop] at hr hnp
    by_cases hp : predMatch p r0 = true
    · rw [if_pos hp] at hr hnp
      cases hck : updateCheckPK sch (u r0) r0 with
      | some c =>
        simp only [hck] at hnp
        exact absurd rfl (hnp c)
      | none =>
        simp only [hck] at hr hnp
        cases hcu : updateCheckUnique sch (before ++ u r0 :: rest) i (u r0) r0 with
        | some v =>
          simp only [hcu] at hr
          rcases List.mem_append.1 hr with h1 | h2
          · exact .inl h1
          · rcases List.mem_cons.1 h2 with h3 | h4
            · exact .inr (.inr ⟨r0, List.mem_cons_self r0 rest, h3, hck⟩)
            · exact .inr (.inl (List.mem_cons_of_mem r0 h4))
        | none =>
          simp only [hcu] at hr hnp
          rcases ih (before ++ [u r0]) (i + 1) (updated + 1) hnp r hr with
            h1 | h2 | ⟨r1, hr1, hru, hcpk⟩
          · rcases List.mem_append.1 h1 with ha | hb
            · exact .inl ha
            · have hb2 : r = u r0 := by simpa using hb
              exact .inr (.inr ⟨r0, List.mem_cons_self r0 rest, hb2, hck⟩)
          · exact .inr (.inl (List.mem_cons_of_mem r0 h2))
          · exact .inr (.inr ⟨r1, List.mem_cons_of_mem r0 hr1, hru, hcpk⟩)
    · rw [if_neg hp] at hr hnp
      rcases ih (before ++ [r0]) (i + 1) updated hnp r hr with
        h1 | h2 | ⟨r1, hr1, hru, hcpk⟩
      · rcases List.mem_append.1 h1 with ha | hb
        · exact .inl ha
        · have hb2 : r = r0 := by simpa using hb
          exact .inr (.inl (hb2 ▸ List.mem_cons_self r0 rest))
      · exact .inr (.inl (List.mem_cons_of_mem r0 h2))
      · exact .inr (.inr ⟨r1, List.mem_cons_of_mem r0 hr1, hru, hcpk⟩)

theorem updateE_pkSeqInvariant (t : Table) (p : Option (Row → Bool))
    (u : Row → Row) (hwf : wfSchema t.schema) (hI : pkSeqInvariant t)
    (hnp : ∀ c, (t.updateE p u).2 ≠ .error (.pk c)) :
    pkSeqInvariant (t.updateE p u).1 := by
  intro r hr v hpk hv
  have hsch : (t.updateE p u).1.schema = t.schema := rfl
  have hseq : (t.updateE p u).1.rowIDSeq = t.rowIDSeq := rfl
  rw [hsch] at hpk hv
  rw [hseq]
  have hr2 : r ∈ (updateLoop t.schema p u [] t.rows 0 0).1 := hr
  have hnp2 : ∀ c, (updateLoop t.schema p u [] t.rows 0 0).2
      ≠ .error (.pk c) := hnp
  have hchar := updateLoop_rows_spec t.schema p u t.rows [] 0 0 hnp2 r hr2
  rcases hchar with h | h | ⟨r0, hr0, hru, hcpk⟩
  · simp at h
  · exact hI r h v hpk hv
  · subst hru
    have hslot := updateCheckPK_none_pk t.schema hwf _ _ hcpk hpk
    obtain ⟨h0, hlt, _⟩ := pkColIndex_spec hpk
    have hk : t.schema.pkColIndex.toNat < (u r0).length :=
      getD_integer_lt_length hv
    rw [rowGetOr_eq_getD h0 (by omega), hv, equals_integer_iff] at hslot
    have hgd : r0.getD t.schema.pkColIndex.toNat .null = .integer v := by
      by_cases hb : t.schema.pkColIndex < (r0.length : Int)
      · rw [rowGetOr_eq_getD h0 hb] at hslot
        exact hslot
      · rw [rowGetOr_oob (by omega)] at hslot
        cases hslot
    exact hI r0 hr0 v hpk hgd

theorem delete_pkSeqInvariant (t : Table) (p : Option (Row → Bool))
    (hI : pkSeqInvariant t) : pkSeqInvariant (t.delete p).1 := by
  intro r hr v hpk hv
  exact hI r (List.mem_filter.1 hr).1 v hpk hv

theorem addIndex_state (t : Table) (c : String) :
    (t.addIndex c).1.rows = t.rows ∧ (t.addIndex c).1.rowIDSeq = t.rowIDSeq ∧
      (t.addIndex c).1.schema = t.schema := by
  unfold Table.addIndex
  split
  · exact ⟨rfl, rfl, rfl⟩
  · split
    · exact ⟨rfl, rfl, rfl⟩
    · exact ⟨rfl, rfl, rfl⟩

theorem insert_schema_eq (t : Table) (r0 : Row) :
    (t.insert r0).1.schema = t.schema := by
  rcases insert_state_cases t r0 with h | ⟨res, _, h⟩ | ⟨fr, _, h⟩ <;> rw [h]

/-- Reachability for the amended claim: table creation requires distinct
column names, updates may not have been rejected for modifying a primary
key, and inserts may not overflow the 64-bit sequence (`t.RowIDSeq++`
wraps at `2^63 - 1`; the no-overflow side condition says the wrapped
increment equals the mathematical one).  Every other operation, including
failing inserts and updates rejected only by a unique constraint, is
unrestricted. -/
inductive ReachA : Table → Prop where
  | init (name : String) (sch : Schema) (hwf : wfSchema sch) :
      ReachA (NewTable name sch)
  | insert (t : Table) (r : Row)
      (hnof : wrap64 (insertAdjustSeq t
          (insertFillDefaults t (insertAutoAssign t r).1) + 1)
        = insertAdjustSeq t (insertFillDefaults t (insertAutoAssign t r).1)
          + 1) :
      ReachA t → ReachA (t.insert r).1
  | update (t : Table) (p : Option (Row → Bool)) (u : Row → Row)
      (hnotpk : ∀ c, (t.updateE p u).2 ≠ .error (.pk c)) :
      ReachA t → ReachA (t.updateE p u).1
  | delete (t : Table) (p : Option (Row → Bool)) : ReachA t →
      ReachA (t.delete p).1
  | truncate (t : Table) : ReachA t → ReachA t.truncate
  | addIndex (t : Table) (c : String) : ReachA t → ReachA (t.addIndex c).1

/-- A one-column primary-key table after inserting the maximal int64 key
`2^63 - 1`: the sequence adjustment pulls `RowIDSeq` up to `2^63 - 1` and
the increment `t.RowIDSeq++` wraps it to `-2^63`. -/
def c2OverflowTable : Table :=
  ((NewTable "t" ⟨[⟨"id", .tInteger, true, false, false, none⟩]⟩).insert
    [.integer (2 ^ 63 - 1)]).1

/-- C2 (amended): in every table whose schema has distinct column names,
reachable through insert, select, delete, truncate, add_index and updates
that were not rejected for modifying a primary key, where no insert
overflowed the 64-bit `row_id_sequence`, the sequence is strictly greater
than every non-null integer value stored in the first primary-key column.
The overflow restriction is necessary: inserting the primary key
`2^63 - 1` is reachable (second conjunct) and wraps the sequence to
`-2^63` with the row still stored, violating the invariant.  (A rejected
primary-key update likewise leaves the mutated value behind — the
counterexample above — and an insert into a table with several primary-key
columns only adjusts the sequence past the first.) -/
theorem C2_sequence_invariant_amended :
    (∀ t : Table, ReachA t → pkSeqInvariant t) ∧
    (Reach c2OverflowTable ∧
      c2OverflowTable.rows = [[.integer (2 ^ 63 - 1)]] ∧
      c2OverflowTable.rowIDSeq = -(2 ^ 63) ∧
      ¬ pkSeqInvariant c2OverflowTable) := by
  constructor
  · intro t h
    have main : wfSchema t.schema ∧ pkSeqInvariant t := by
      induction h with
      | init name sch hwf =>
        exact ⟨hwf, by intro r hr; simp [NewTable] at hr⟩
      | insert t r hnof ht ih =>
        refine ⟨?_, insert_pkSeqInvariant t r ih.2 hnof⟩
        rw [insert_schema_eq]
        exact ih.1
      | update t p u hnotpk ht ih =>
        exact ⟨ih.1, updateE_pkSeqInvariant t p u ih.1 ih.2 hnotpk⟩
      | delete t p ht ih =>
        exact ⟨ih.1, delete_pkSeqInvariant t p ih.2⟩
      | truncate t ht ih =>
        exact ⟨ih.1, by intro r hr; simp [Table.truncate] at hr⟩
      | addIndex t c ht ih =>
        obtain ⟨h1, h2, h3⟩ := addIndex_state t c
        refine ⟨by rw [h3]; exact ih.1, ?_⟩
        intro r hr v hpk hv
        rw [h1] at hr
        rw [h3] at hpk hv
        rw [h2]
        exact ih.2 r hr v hpk hv
    exact main.2
  · refine ⟨Reach.insert _ _ (Reach.init _ _), by decide, by decide,
      fun hinv => ?_⟩
    have hrow : [Value.integer (2 ^ 63 - 1)] ∈ c2OverflowTable.rows := by
      decide
    have h1 := hinv _ hrow (2 ^ 63 - 1) (by decide) (by decide)
    have h2 : c2OverflowTable.rowIDSeq = -(2 ^ 63) := by decide
    omega

/-- Witness for the amended C2: the invariant holds in a freshly created
one-column primary-key table. -/
theorem C2_sequence_invariant_amended_witness :
    pkSeqInvariant
      (NewTable "w" ⟨[⟨"id", .tInteger, true, false, false, none⟩]⟩) :=
  C2_sequence_invariant_amended.1 _
    (ReachA.init _ _ (by unfold wfSchema; decide))

/-! ### Executor INSERT and UPDATE (sql executor)

`executeInsert` and `executeUpdate` operate on the one table the statement
names; the `GetTable` lookup and the `Result` message wrapper are omitted
and the row count is returned directly. -/
structure InsertStatement where
  table : String
  columns : List String
  values : List (List Expr)

structure SetClause where
  column : String
  value : Expr

structure UpdateStatement where
  table : String
  setClauses : List SetClause
  whereExpr : Option Expr

/-- The `colToExpr` map of `executeInsert`: one entry per column name at a
position below `|rowExprs|`, a later duplicate column name overwriting an
earlier one, as in the Go map. -/
def lookupColExpr (cols : List String) (exprs : List Expr) (name : String) :
    Option Expr :=
  (cols.zip exprs).foldl
    (fun acc p => if p.1 == name then some p.2 else acc) none

/-- The row construction of `executeInsert`: always a full-schema-length
vector.  With a column list, each schema column takes its mapped
expression (evaluated without row context) or Null when absent; without
one, expressions fill schema positions left to right and the rest is
Null. -/
def buildInsertRow (sch : Schema) (stmtCols : List String)
    (rowExprs : List Expr) : Except String Row :=
  if stmtCols.length > 0 then
    sch.columns.mapM (fun colDef =>
      match lookupColExpr stmtCols rowExprs colDef.name with
      | some e => evaluateExpression sch e
      | none => .ok Value.null)
  else
    (List.range sch.columns.length).mapM (fun i =>
      if i < rowExprs.length then
        evaluateExpression sch (rowExprs.getD i .nullLit)
      else .ok Value.null)

/-- The row loop of `executeInsert`: build and insert each VALUES tuple in
order, stopping at the first evaluation or insert error; previously
inserted rows of the same statement stay in the table. -/
def executeInsertRows (stmtCols : List String) :
    Table → List (List Expr) → Int → Table × Except String Int
  | t, [], n => (t, .ok n)
  | t, rowExprs :: rest, n =>
    match buildInsertRow t.schema stmtCols rowExprs with
    | .error e => (t, .error e)
    | .ok row =>
      match t.insert row with
      | (t2, .error e) => (t2, .error e)
      | (t2, .ok _) => executeInsertRows stmtCols t2 rest (n + 1)

/-- `executeInsert` on the statement's table. -/
def executeInsert (t : Table) (stmt : InsertStatement) :
    Table × Except String Int :=
  executeInsertRows stmt.columns t stmt.values 0

/-- Insert-overwrite on the assoc-list rendering of the `updates` Go map. -/
def upsert (m : List (String × Value)) (k : String) (v : Value) :
    List (String × Value) :=
  if m.any (fun p => p.1 == k) then
    m.map (fun p => if p.1 == k then (k, v) else p)
  else m ++ [(k, v)]

/-- Evaluation of the SET expressions (without row context, as
`executeUpdate` does); the first error aborts the whole collection. -/
def evalSetClauses (sch : Schema) :
    List SetClause → List (String × Value) → Except String (List (String × Value))
  | [], acc => .ok acc
  | sc :: rest, acc =>
    match evaluateExpression sch sc.value with
    | .error e => .error e
    | .ok v => evalSetClauses sch rest (upsert acc sc.column v)

/-- The updater closure of `executeUpdate`: on any SET evaluation error the
closure returns early and the row stays unchanged; otherwise every update
is written into its column slot (an unknown column is skipped).  Distinct
keys write distinct slots, so the Go map iteration order does not affect
the result; insertion order is used here. -/
def applySetClauses (sch : Schema) (setClauses : List SetClause) (row : Row) :
    Row :=
  match evalSetClauses sch setClauses [] with
  | .error _ => row
  | .ok updates =>
    updates.foldl (fun r p =>
      if sch.columnIndex p.1 ≥ 0 then rowSet r (sch.columnIndex p.1) p.2
      else r) row

/-- `executeUpdate` on the statement's table: compile the WHERE predicate,
build the updater, run `Table.Update`. -/
def executeUpdate (t : Table) (stmt : UpdateStatement) :
    Table × Except String Int :=
  t.update (some (buildPredicate t.schema stmt.whereExpr))
    (applySetClauses t.schema stmt.setClauses)

/-! ### Claims C3 and C4: error atomicity and INSERT defaults -/

/-- A table `t(id INTEGER PRIMARY KEY, v INTEGER DEFAULT 7)`. -/
def c4Table : Table :=
  NewTable "t" ⟨[⟨"id", .tInteger, true, false, false, none⟩,
    ⟨"v", .tInteger, false, false, false, some (.integer 7)⟩]⟩

/-- C4: the code evaluated at the failing input.  `INSERT INTO t (id)
VALUES (1)` omits the DEFAULT-carrying column `v`, yet the stored row holds
Null there, because the executor always builds a full-schema-length row
(padding omitted columns with Null) and `Table.Insert` fills defaults only
into rows shorter than the schema — as the third conjunct shows, inserting
the short row directly does apply the default. -/
theorem C4_default_not_applied :
    (executeInsert c4Table ⟨"t", ["id"], [[.literal "1"]]⟩).1.rows
      = [[.integer 1, .null]] ∧
    (executeInsert c4Table ⟨"t", ["id"], [[.literal "1"]]⟩).2 = .ok 1 ∧
    (c4Table.insert [.integer 1]).1.rows = [[.integer 1, .integer 7]] := by
  decide

/-- A table `t(id INTEGER PRIMARY KEY)` (empty, and with the row `(1)`). -/
def c3Table : Table :=
  NewTable "t" ⟨[⟨"id", .tInteger, true, false, false, none⟩]⟩

/-- The same table containing the row `(1)`. -/
def c3Table1 : Table := (c3Table.insert [.integer 1]).1

/-- C3 counterexample: `INSERT INTO t VALUES (1), (1)` fails on the second
tuple but leaves the first row inserted (the claim requires no rows
inserted), and `UPDATE t SET id = 9` is rejected for changing the primary
key but leaves the triggering row with the new value 9 (the claim requires
its original values). -/
theorem C3_partial_mutations_remain :
    ((executeInsert c3Table ⟨"t", [], [[.literal "1"], [.literal "1"]]⟩).2.isOk
      = false) ∧
    (executeInsert c3Table ⟨"t", [], [[.literal "1"], [.literal "1"]]⟩).1.rows
      = [[.integer 1]] ∧
    ((executeUpdate c3Table1 ⟨"t", [⟨"id", .literal "9"⟩], none⟩).2.isOk
      = false) ∧
    (executeUpdate c3Table1 ⟨"t", [⟨"id", .literal "9"⟩], none⟩).1.rows
      = [[.integer 9]] := by
  decide

theorem executeInsertRows_ok_append (cols : List String) :
    ∀ (vss1 : List (List Expr)) (t : Table) (vss2 : List (List Expr))
      (n : Int) (t1 : Table) (m : Int),
      executeInsertRows cols t vss1 n = (t1, .ok m) →
      executeInsertRows cols t (vss1 ++ vss2) n
        = executeInsertRows cols t1 vss2 m := by
  intro vss1
  induction vss1 with
  | nil =>
    intro t vss2 n t1 m h
    rw [executeInsertRows] at h
    cases h
    rfl
  | cons vs rest ih =>
    intro t vss2 n t1 m h
    rw [executeInsertRows] at h
    rw [List.cons_append, executeInsertRows]
    cases hb : buildInsertRow t.schema cols vs with
    | error e =>
      simp only [hb] at h
      simp at h
    | ok row =>
      simp only [hb] at h ⊢
      cases hi : t.insert row with
      | mk t2 res =>
        simp only [hi] at h ⊢
        cases res with
        | error e => simp at h
        | ok k => exact ih t2 vss2 (n + 1) t1 m h

theorem executeInsertRows_error_append (cols : List String) :
    ∀ (vss1 : List (List Expr)) (t : Table) (vss2 : List (List Expr))
      (n : Int) (t1 : Table) (e : String),
      executeInsertRows cols t vss1 n = (t1, .error e) →
      executeInsertRows cols t (vss1 ++ vss2) n = (t1, .error e) := by
  intro vss1
  induction vss1 with
  | nil =>
    intro t vss2 n t1 e h
    rw [executeInsertRows] at h
    cases h
  | cons vs rest ih =>
    intro t vss2 n t1 e h
    rw [executeInsertRows] at h
    rw [List.cons_append, executeInsertRows]
    cases hb : buildInsertRow t.schema cols vs with
    | error e2 =>
      simp only [hb] at h ⊢
      exact h
    | ok row =>
      simp only [hb] at h ⊢
      cases hi : t.insert row with
      | mk t2 res =>
        simp only [hi] at h ⊢
        cases res with
        | error e2 => exact h
        | ok k => exact ih t2 vss2 (n + 1) t1 e h

theorem updateLoop_error_spec (sch : Schema) (p : Option (Row → Bool))
    (u : Row → Row) :
    ∀ (rest before : List Row) (i : Nat) (updated : Int) (e : UpdErr),
      (updateLoop sch p u before rest i updated).2 = .error e →
      ∃ pre r0 post, rest = pre ++ r0 :: post ∧ predMatch p r0 = true ∧
        (updateLoop sch p u before rest i updated).1
          = before ++ pre.map (fun r => if predMatch p r then u r else r)
              ++ u r0 :: post := by
  intro rest
  induction rest with
  | nil =>
    intro before i updated e h
    rw [updateLoop] at h
    cases h
  | cons r0 rest ih =>
    intro before i updated e h
    rw [updateLoop] at h ⊢
    by_cases hp : predMatch p r0 = true
    · rw [if_pos hp] at h ⊢
      cases hck : updateCheckPK sch (u r0) r0 with
      | some c =>
        simp only [hck]
        exact ⟨[], r0, rest, rfl, hp, by simp⟩
      | none =>
        simp only [hck] at h ⊢
        cases hcu : updateCheckUnique sch (before ++ u r0 :: rest) i (u r0) r0 with
        | some v =>
          simp only [hcu]
          exact ⟨[], r0, rest, rfl, hp, by simp⟩
        | none =>
          simp only [hcu] at h ⊢
          obtain ⟨pre, r1, post, hrest, hp1, hrows⟩ :=
            ih (before ++ [u r0]) (i + 1) (updated + 1) e h
          refine ⟨r0 :: pre, r1, post, by rw [hrest]; simp, hp1, ?_⟩
          rw [hrows]
          simp [hp]
    · rw [if_neg hp] at h ⊢
      obtain ⟨pre, r1, post, hrest, hp1, hrows⟩ :=
        ih (before ++ [r0]) (i + 1) updated e h
      refine ⟨r0 :: pre, r1, post, by rw [hrest]; simp, hp1, ?_⟩
      rw [hrows]
      simp [hp]

/-- C3 (amended): a statement stops at its first error, with the earlier
effects of the same statement kept: a multi-row INSERT whose k-th tuple is
rejected keeps the successfully inserted earlier tuples (continuing a
statement from an accumulated state appends, and an error is final); a
rejected UPDATE leaves every earlier matched row mutated and also leaves
the row that triggered the rejection with the updater applied — not with
its original values — while the rows after it are untouched.  (The
spec-listed index rollback exception is dead code: `BTree.Insert` cannot
fail.) -/
theorem C3_first_error_keeps_prior_effects :
    (∀ (cols : List String) (vss1 : List (List Expr)) (t : Table)
      (vss2 : List (List Expr)) (n : Int) (t1 : Table) (m : Int),
      executeInsertRows cols t vss1 n = (t1, .ok m) →
      executeInsertRows cols t (vss1 ++ vss2) n
        = executeInsertRows cols t1 vss2 m) ∧
    (∀ (cols : List String) (vss1 : List (List Expr)) (t : Table)
      (vss2 : List (List Expr)) (n : Int) (t1 : Table) (e : String),
      executeInsertRows cols t vss1 n = (t1, .error e) →
      executeInsertRows cols t (vss1 ++ vss2) n = (t1, .error e)) ∧
    (∀ (t : Table) (p : Option (Row → Bool)) (u : Row → Row) (e : UpdErr),
      (t.updateE p u).2 = .error e →
      ∃ pre r0 post, t.rows = pre ++ r0 :: post ∧ predMatch p r0 = true ∧
        (t.updateE p u).1.rows
          = pre.map (fun r => if predMatch p r then u r else r)
              ++ u r0 :: post) := by
  refine ⟨executeInsertRows_ok_append, executeInsertRows_error_append, ?_⟩
  intro t p u e h
  obtain ⟨pre, r0, post, hrest, hp, hrows⟩ :=
    updateLoop_error_spec t.schema p u t.rows [] 0 0 e h
  exact ⟨pre, r0, post, hrest, hp, by simpa using hrows⟩

/-- Witness for the amended C3: the append law applied after the
successful one-row prefix of `INSERT INTO t VALUES (1), (1)`, and the
update decomposition applied to the rejected `UPDATE t SET id = 9`. -/
theorem C3_first_error_keeps_prior_effects_witness :
    (executeInsertRows [] c3Table [[.literal "1"], [.literal "1"]] 0
      = executeInsertRows []
          (executeInsertRows [] c3Table [[.literal "1"]] 0).1
          [[.literal "1"]] 1) ∧
    (∃ pre r0 post, c3Table1.rows = pre ++ r0 :: post ∧
      predMatch (some (buildPredicate c3Table1.schema none)) r0 = true ∧
      (c3Table1.updateE (some (buildPredicate c3Table1.schema none))
          (applySetClauses c3Table1.schema [⟨"id", .literal "9"⟩])).1.rows
        = pre.map (fun r =>
            if predMatch (some (buildPredicate c3Table1.schema none)) r
            then applySetClauses c3Table1.schema [⟨"id", .literal "9"⟩] r
            else r)
            ++ applySetClauses c3Table1.schema [⟨"id", .literal "9"⟩] r0
              :: post) := by
  constructor
  · have h1 : executeInsertRows [] c3Table [[.literal "1"]] 0
        = ((executeInsertRows [] c3Table [[.literal "1"]] 0).1, .ok 1) := by
      decide
    have := C3_first_error_keeps_prior_effects.1 []
      [[Expr.literal "1"]] c3Table [[Expr.literal "1"]] 0
      (executeInsertRows [] c3Table [[.literal "1"]] 0).1 1 h1
    simpa using this
  · exact C3_first_error_keeps_prior_effects.2.2 c3Table1
      (some (buildPredicate c3Table1.schema none))
      (applySetClauses c3Table1.schema [⟨"id", .literal "9"⟩])
      (.pk "id") (by decide)

/-! ### Executor SELECT (executeSelect)

The catalog is the name-to-table map of `Database`; `tableMap` and
`offsetMap` are Go maps keyed by alias or table name, rendered as
association lists with overwrite (map iteration order cannot affect any
result below: the unqualified-column search errs exactly when at least two
registered tables carry the column, and otherwise finds the unique one). -/
structure TableRef where
  name : String
  aliasName : String
  deriving DecidableEq, Repr

structure JoinClause where
  type : String
  table : String
  aliasName : String
  conditions : List Expr
  deriving DecidableEq, Repr

structure SelectStatement where
  columns : List String
  tables : List TableRef
  whereExpr : Option Expr
  joins : List JoinClause
  limit : Option Int
  offset : Option Int
  distinct : Bool
  deriving DecidableEq, Repr

/-- Go map read (`m[k]`, missing key gives the zero value through `getD`
at use sites). -/
def getAssoc {α : Type} (m : List (String × α)) (k : String) : Option α :=
  (m.find? (fun p => p.1 == k)).map (fun p => p.2)

/-- Go map write `m[k] = v`. -/
def setAssoc {α : Type} (m : List (String × α)) (k : String) (v : α) :
    List (String × α) :=
  if m.any (fun p => p.1 == k) then
    m.map (fun p => if p.1 == k then (k, v) else p)
  else m ++ [(k, v)]

/-- `Database.GetTable`. -/
def getTable (db : List (String × Table)) (name : String) :
    Except String Table :=
  match getAssoc db name with
  | some t => .ok t
  | none => .error ("table " ++ name ++ " not found")

/-- The unqualified branch of `resolveColumnIndex`: scan every registered
table; two hits are ambiguous, none is unknown.  `acc = -1` encodes the Go
`foundIdx` sentinel. -/
def resolveUnqualified (offsets : List (String × Int)) (column : String) :
    List (String × Table) → Int → Except String Int
  | [], acc =>
    if acc == -1 then .error ("column not found: " ++ column) else .ok acc
  | (nm, tb) :: rest, acc =>
    if tb.schema.columnIndex column ≥ 0 then
      if acc != -1 then .error ("ambiguous column name: " ++ column)
      else resolveUnqualified offsets column rest
        ((getAssoc offsets nm).getD 0 + tb.schema.columnIndex column)
    else resolveUnqualified offsets column rest acc

/-- `Executor.resolveColumnIndex` for a (qualifier, column) pair; an empty
qualifier searches all tables. -/
def resolveColumnIndex (qualifier column : String)
    (tables : List (String × Table)) (offsets : List (String × Int)) :
    Except String Int :=
  if qualifier != "" then
    match getAssoc tables qualifier with
    | none => .error ("unknown table or alias: " ++ qualifier)
    | some table =>
      if table.schema.columnIndex column < 0 then
        .error ("column " ++ column ++ " not found in table " ++ qualifier)
      else .ok ((getAssoc offsets qualifier).getD 0
        + table.schema.columnIndex column)
  else resolveUnqualified offsets column tables (-1)

/-- `evaluateExpressionForJoinedRow` (the nil-row branch is unreachable:
every caller passes a row). -/
def evalExprJoined (tables : List (String × Table))
    (offsets : List (String × Int)) (row : Row) : Expr → Except String Value
  | .literal s => parseLiteral s
  | .nullLit => .ok .null
  | .colRef tq c => do
    let idx ← resolveColumnIndex tq c tables offsets
    rowGet row idx
  | .binary l op r => do
    let lv ← evalExprJoined tables offsets row l
    let rv ← evalExprJoined tables offsets row r
    evaluateBinaryOp lv op rv
  | .unary op r => do
    let rv ← evalExprJoined tables offsets row r
    evaluateUnaryOp op rv

/-- The running join state of `executeSelect`. -/
structure SelState where
  tables : List (String × Table)
  offsets : List (String × Int)
  currentOffset : Int
  rows : List Row

/-- One join step of `executeSelect`: register the target under its alias
or name, form the cross product keeping concatenations on which every ON
condition evaluates truthily (an evaluation error counts as a non-match,
it does not abort the statement), and LEFT-pad unmatched left rows with
Nulls. -/
def applyJoin (db : List (String × Table)) (st : SelState)
    (join : JoinClause) : Except String SelState := do
  let targetTable ← getTable db join.table
  let lookupName := if join.aliasName != "" then join.aliasName else join.table
  let tables2 := setAssoc st.tables lookupName targetTable
  let offsets2 := setAssoc st.offsets lookupName st.currentOffset
  let targetColsLen : Int := targetTable.schema.columns.length
  let targetRows := targetTable.select none
  let newRows := st.rows.foldl (fun acc leftRow =>
    let combinedMatches := (targetRows.filter (fun rightRow =>
      join.conditions.all (fun cond =>
        match evalExprJoined tables2 offsets2 (leftRow ++ rightRow) cond with
        | .ok v => getValueAsBool v
        | .error _ => false))).map (fun rightRow => leftRow ++ rightRow)
    if combinedMatches.isEmpty &&
        (join.type == "LEFT" || join.type == "LEFT OUTER") then
      acc ++ [leftRow ++ List.replicate targetColsLen.toNat Value.null]
    else acc ++ combinedMatches) []
  pure ⟨tables2, offsets2, st.currentOffset + targetColsLen, newRows⟩

/-- The WHERE pass of `executeSelect`: keep the rows whose WHERE value is
truthy under `getValueAsBool`; unlike the join conditions, an evaluation
error aborts the statement. -/
def filterWhere (tables : List (String × Table))
    (offsets : List (String × Int)) (w : Option Expr) :
    List Row → Except String (List Row)
  | [] => .ok []
  | r :: rest =>
    match w with
    | none => do
      let rest2 ← filterWhere tables offsets w rest
      pure (r :: rest2)
    | some e => do
      let v ← evalExprJoined tables offsets r e
      let rest2 ← filterWhere tables offsets (some e) rest
      if getValueAsBool v then pure (r :: rest2) else pure rest2

/-- Rendering of a value into a result cell (`ToString`).  Integer,
Boolean, Text and Null render as in Go; the Float rendering of the
rational model differs textually from Go shortest-round-trip decimals (no
claim depends on it). -/
def Value.toStr : Value → String
  | .null => "NULL"
  | .integer v => toString v
  | .text s => s
  | .boolean b => if b then "true" else "false"
  | .float (.finite q) => toString q
  | .float .posInf => "+Inf"
  | .float .negInf => "-Inf"
  | .float .nan => "NaN"

/-- Split a projection item at its first dot into qualifier and column
(no dot: empty qualifier), as `executeSelect` does character by
character. -/
def splitQualified (colName : String) : String × String :=
  match colName.toList.findIdx? (fun c => c == '.') with
  | some i => (String.mk (colName.toList.take i),
      String.mk (colName.toList.drop (i + 1)))
  | none => ("", colName)

/-- The result column list: `*` expands to the primary table's columns
followed by each joined table's columns; otherwise the requested items.
(The Go code refetches each join's table by name and ignores the error —
the join already resolved it, so the miss is unreachable and rendered as
no columns.) -/
def selectResultColumns (db : List (String × Table)) (primaryTable : Table)
    (stmt : SelectStatement) : List String :=
  if stmt.columns == ["*"] then
    primaryTable.schema.columns.map Column.name ++
      stmt.joins.foldl (fun acc join =>
        acc ++ (match getTable db join.table with
          | .ok tb => tb.schema.columns.map Column.name
          | .error _ => [])) []
  else stmt.columns

/-- Render one joined row under the result columns.  `row.Get` errors are
discarded in Go (`val, _ :=`); a resolved index is always in range, so the
Null default is unreachable. -/
def projectRow (tables : List (String × Table))
    (offsets : List (String × Int)) (resultCols : List String) (row : Row) :
    Except String (List String) :=
  resultCols.mapM (fun colName => do
    let q := splitQualified colName
    let idx ← resolveColumnIndex q.1 q.2 tables offsets
    pure (rowGetOr row idx).toStr)

/-- The Go slice expression `rows[a:b]`: defined when `0 ≤ a ≤ b ≤ len`,
otherwise a runtime panic (`none`). -/
def goSlice (rows : List (List String)) (a b : Int) :
    Option (List (List String)) :=
  if 0 ≤ a ∧ a ≤ b ∧ b ≤ (rows.length : Int) then
    some ((rows.take b.toNat).drop a.toNat)
  else none

/-- Step 5 of `executeSelect`: the LIMIT / OFFSET slice.  It runs only when
a LIMIT clause is present (and the row list is non-empty); without LIMIT an
OFFSET clause is ignored.  `end := offset + limit` is Go `int` arithmetic
and wraps around (`wrap64`), and there is no guard against a wrapped (or
otherwise deficient) upper bound, so `result.Rows[offset:end]` can panic
(`none`). -/
def applyLimitOffset (limit voffset : Option Int)
    (rows : List (List String)) : Option (List (List String)) :=
  match limit with
  | none => some rows
  | some l =>
    if rows.length > 0 then
      let off := voffset.getD 0
      if off ≥ (rows.length : Int) then some []
      else
        let e := wrap64 (off + l)
        let e2 := if e > (rows.length : Int) then (rows.length : Int) else e
        goSlice rows off e2
    else some rows

/-- Steps 1-4 of `executeSelect` (everything before the LIMIT / OFFSET
slice), in the executor error monad. -/
def executeSelectRendered (db : List (String × Table))
    (stmt : SelectStatement) :
    Except String (List String × List (List String)) := do
  match stmt.tables with
  | [] => .error "no table specified in SELECT"
  | primaryRef :: _ => do
    let primaryTable ← getTable db primaryRef.name
    let lookupName :=
      if primaryRef.aliasName != "" then primaryRef.aliasName else primaryRef.name
    let st0 : SelState :=
      ⟨setAssoc [] lookupName primaryTable, setAssoc [] lookupName 0,
        (primaryTable.schema.columns.length : Int), primaryTable.select none⟩
    let st1 ← stmt.joins.foldlM (applyJoin db) st0
    let finalRows ← filterWhere st1.tables st1.offsets stmt.whereExpr st1.rows
    let resultCols := selectResultColumns db primaryTable stmt
    let rendered ← finalRows.mapM (projectRow st1.tables st1.offsets resultCols)
    pure (resultCols, rendered)

/-- `executeSelect`: the rendered rows with the LIMIT / OFFSET slice
applied; the outer `Option` is the runtime panic of the slice expression
(`none`), which is not an error return.  Only the first FROM table is used
(additional comma-separated tables are parsed but ignored by the Go
executor). -/
def executeSelect (db : List (String × Table)) (stmt : SelectStatement) :
    Option (Except String (List String × List (List String))) :=
  match executeSelectRendered db stmt with
  | .error e => some (.error e)
  | .ok (cols, rendered) =>
    match applyLimitOffset stmt.limit stmt.offset rendered with
    | some rs => some (.ok (cols, rs))
    | none => none

/-! ### Claim C7: LIMIT / OFFSET semantics -/

/-- A table `t(id INTEGER PRIMARY KEY, name TEXT NOT NULL)` holding the
row `(1, a)`, in a one-table catalog. -/
def c7Db : List (String × Table) :=
  [("t", ((NewTable "t" ⟨[⟨"id", .tInteger, true, false, false, none⟩,
    ⟨"name", .tText, false, false, true, none⟩]⟩).insert
      [.integer 1, .text "a"]).1)]

/-- C7 counterexample: `SELECT * FROM t OFFSET 5` (no LIMIT) on a one-row
table returns that row — the OFFSET clause is ignored because the slicing
step only runs when a LIMIT clause is present — where the claim requires an
empty result (5 ≥ 1); with `LIMIT 1 OFFSET 5` the result is empty as
claimed. -/
theorem C7_offset_ignored_without_limit :
    executeSelect c7Db ⟨["*"], [⟨"t", ""⟩], none, [], none, some 5, false⟩
      = some (.ok (["id", "name"], [["1", "a"]])) ∧
    executeSelect c7Db ⟨["*"], [⟨"t", ""⟩], none, [], some 1, some 5, false⟩
      = some (.ok (["id", "name"], [])) := by
  decide

/-- C7 (amended): the LIMIT / OFFSET slice applies only when a LIMIT clause
is present: without LIMIT the rendered rows are returned whole and OFFSET
is ignored.  With LIMIT, an OFFSET at or past the row count gives the empty
result; when `offset + limit` does not overflow the 64-bit int and both
are non-negative, the slice equals dropping `offset` rows and taking
`limit`; and when `offset + limit` wraps below the offset (e.g. `LIMIT
9223372036854775807 OFFSET 1` on a table with more than one rendered row),
the unguarded `result.Rows[offset:end]` panics. -/
theorem C7_offset_requires_limit (rows : List (List String)) (off l : Int) :
    applyLimitOffset none (some off) rows = some rows ∧
    (0 < rows.length → off ≥ (rows.length : Int) →
      applyLimitOffset (some l) (some off) rows = some []) ∧
    (0 ≤ off → 0 ≤ l → wrap64 (off + l) = off + l →
      applyLimitOffset (some l) (some off) rows
        = some ((rows.drop off.toNat).take l.toNat)) ∧
    (0 ≤ off → off < (rows.length : Int) → wrap64 (off + l) < off →
      applyLimitOffset (some l) (some off) rows = none) := by
  refine ⟨rfl, ?_, ?_, ?_⟩
  · intro hpos hge
    simp only [applyLimitOffset, Option.getD_some]
    rw [if_pos (by omega : rows.length > 0)]
    rw [if_pos hge]
  · intro hoff hl hw
    simp only [applyLimitOffset, Option.getD_some]
    split
    · split
      · rename_i hge
        have h2 : rows.length ≤ off.toNat := by omega
        rw [List.drop_eq_nil_of_le h2, List.take_nil]
      · rename_i hlt
        rw [hw]
        unfold goSlice
        split
        · rename_i hbig
          rw [if_pos ⟨hoff, by omega, by omega⟩]
          rw [Int.toNat_ofNat, List.take_length]
          have hlen2 : (rows.drop off.toNat).length ≤ l.toNat := by
            rw [List.length_drop]
            omega
          rw [List.take_of_length_le hlen2]
        · rename_i hsmall
          rw [if_pos ⟨hoff, by omega, by omega⟩]
          rw [List.take_drop]
          congr 2
          rw [Int.toNat_add hoff hl]
    · rename_i hlen
      simp at hlen
      simp [hlen]
  · intro hoff hlt hwrap
    simp only [applyLimitOffset, Option.getD_some]
    rw [if_pos (by omega : rows.length > 0)]
    rw [if_neg (by omega)]
    rw [if_neg (by omega : ¬ wrap64 (off + l) > (rows.length : Int))]
    unfold goSlice
    rw [if_neg (by omega)]

/-- Witness for the amended C7: `OFFSET 5` without LIMIT keeps all three
rows, `LIMIT 1 OFFSET 1` keeps exactly the middle row, and the maximal
int64 LIMIT with `OFFSET 1` on a two-row list wraps the bound and
panics. -/
theorem C7_offset_requires_limit_witness :
    applyLimitOffset none (some 5) [["a"], ["b"], ["c"]]
      = some [["a"], ["b"], ["c"]] ∧
    applyLimitOffset (some 1) (some 1) [["a"], ["b"], ["c"]]
      = some (([["a"], ["b"], ["c"]].drop 1).take 1) ∧
    applyLimitOffset (some (2 ^ 63 - 1)) (some 1) [["a"], ["b"]] = none :=
  ⟨(C7_offset_requires_limit [["a"], ["b"], ["c"]] 5 1).1,
    (C7_offset_requires_limit [["a"], ["b"], ["c"]] 1 1).2.2.1 (by decide)
      (by decide) (by decide),
    (C7_offset_requires_limit [["a"], ["b"]] 1 (2 ^ 63 - 1)).2.2.2
      (by decide) (by decide) (by decide)⟩

/-! ### Lexer (sql lexer)

The Go lexer reads the input string byte by byte (`rune(l.input[i])`
yields the byte value), so the input is a list of byte values here and
token values are byte lists.  `unicode.IsSpace` on a single byte holds for
9..13, 32, 0x85 and 0xA0; `unicode.IsLetter` on a single byte holds for
the ASCII and Latin-1 letters. -/
def isSpaceB (b : Nat) : Bool :=
  (9 ≤ b && b ≤ 13) || b == 32 || b == 133 || b == 160

def isUnicodeLetterB (b : Nat) : Bool :=
  (65 ≤ b && b ≤ 90) || (97 ≤ b && b ≤ 122) || b == 170 || b == 181 ||
    b == 186 || (192 ≤ b && b ≤ 214) || (216 ≤ b && b ≤ 246) ||
    (248 ≤ b && b ≤ 255)

/-- The lexer `isLetter`: a unicode letter or an underscore. -/
def isLetterB (b : Nat) : Bool := isUnicodeLetterB b || b == 95

/-- The lexer `isDigit` (`unicode.IsDigit` on a byte: ASCII 0-9). -/
def isDigitB (b : Nat) : Bool := 48 ≤ b && b ≤ 57

/-- The `Lexer` state: `ch` is 0 at (and past) the end of input. -/
structure Lexer where
  input : List Nat
  position : Nat
  readPosition : Nat
  ch : Nat
  line : Nat
  column : Nat
  deriving DecidableEq, Repr

/-- `readChar`: load the byte at `readPosition` (0 past the end), advance,
and track line/column (the line counter advances when the newly loaded
character is the newline). -/
def readChar (l : Lexer) : Lexer :=
  let c := if l.readPosition ≥ l.input.length then 0
    else l.input.getD l.readPosition 0
  if c == 10 then
    { l with
        ch := c
        position := l.readPosition
        readPosition := l.readPosition + 1
        line := l.line + 1
        column := 1 }
  else
    { l with
        ch := c
        position := l.readPosition
        readPosition := l.readPosition + 1
        column := l.column + 1 }

/-- `peekChar`. -/
def peekChar (l : Lexer) : Nat :=
  if l.readPosition ≥ l.input.length then 0 else l.input.getD l.readPosition 0

/-- `NewLexer`. -/
def NewLexer (input : List Nat) : Lexer :=
  readChar ⟨input, 0, 0, 0, 1, 1⟩

/-- `skipWhitespace`: skip spaces EXCEPT the newline.  All lexer loops are
written with explicit fuel; `nextToken` passes `|input| + 1`, which the
invariant lemmas below show is always enough. -/
def skipWhitespaceF : Nat → Lexer → Lexer
  | 0, l => l
  | fuel + 1, l =>
    if isSpaceB l.ch && l.ch != 10 then skipWhitespaceF fuel (readChar l)
    else l

/-- The scan-to-end-of-line loop of `skipComment`. -/
def skipToNewlineF : Nat → Lexer → Lexer
  | 0, l => l
  | fuel + 1, l =>
    if l.ch != 10 && l.ch != 0 then skipToNewlineF fuel (readChar l) else l

/-- `skipComment`: on `--`, skip to the newline (or the end) and then any
further non-newline whitespace. -/
def skipCommentF (fuel : Nat) (l : Lexer) : Lexer :=
  if l.ch == 45 && peekChar l == 45 then
    skipWhitespaceF fuel (skipToNewlineF fuel l)
  else l

/-- The identifier / number / generic character loop: advance while the
predicate holds of the current character. -/
def readCharsWhile (p : Nat → Bool) : Nat → Lexer → Lexer
  | 0, l => l
  | fuel + 1, l => if p l.ch then readCharsWhile p fuel (readChar l) else l

/-- The `readNumber` loop: digits with at most one dot (a second dot stops
the scan). -/
def readNumberF : Nat → Bool → Lexer → Lexer
  | 0, _, l => l
  | fuel + 1, hasDec, l =>
    if isDigitB l.ch then readNumberF fuel hasDec (readChar l)
    else if l.ch == 46 then
      if hasDec then l else readNumberF fuel true (readChar l)
    else l

/-- The `readString` loop: scan to the closing quote or the end, skipping
an extra character after a backslash-quote escape. -/
def readStringLoopF : Nat → Lexer → Lexer
  | 0, l => l
  | fuel + 1, l =>
    if l.ch != 39 && l.ch != 0 then
      if l.ch == 92 && peekChar l == 39 then
        readStringLoopF fuel (readChar (readChar l))
      else readStringLoopF fuel (readChar l)
    else l

/-- The Go slice `l.input[a:b]`. -/
def sliceInput (l : Lexer) (a b : Nat) : List Nat := (l.input.take b).drop a

inductive TokType where
  | eof
  | keyword
  | ident
  | literal
  | operator
  | punctuation
  | strLit
  deriving DecidableEq, Repr

structure Token where
  type : TokType
  value : List Nat
  line : Nat
  column : Nat
  deriving DecidableEq, Repr

/-- Bytes of an ASCII string literal. -/
def strBytes (s : String) : List Nat := s.toList.map Char.toNat

/-- Byte-wise ASCII upper-casing (`strings.ToUpper`; non-ASCII bytes can
never produce a keyword byte either way). -/
def toUpperB (b : Nat) : Nat := if 97 ≤ b ∧ b ≤ 122 then b - 32 else b

/-- The fixed keyword set. -/
def keywordList : List String :=
  ["SELECT", "INSERT", "UPDATE", "DELETE", "CREATE", "DROP", "TABLE",
   "INTO", "VALUES", "SET", "FROM", "WHERE", "JOIN", "INNER", "LEFT",
   "RIGHT", "ON", "AND", "OR", "NOT", "NULL", "PRIMARY", "KEY", "UNIQUE",
   "DEFAULT", "FOREIGN", "REFERENCES", "CASCADE", "RESTRICT", "LIMIT",
   "OFFSET", "ORDER", "BY", "ASC", "DESC", "BEGIN", "COMMIT", "ROLLBACK",
   "TRANSACTION"]

/-- `isKeyword`: the upper-cased identifier is in the keyword set. -/
def isKeywordB (ident : List Nat) : Bool :=
  keywordList.any (fun k => strBytes k == ident.map toUpperB)

/-- The dispatch switch of `NextToken`, applied to the state left by the
whitespace/comment skips.  Factored out of `nextToken` only to name the
intermediate state; the body is the Go switch verbatim. -/
def emitToken (fuel : Nat) (l : Lexer) : Token × Lexer :=
  let mkTok := fun (ty : TokType) (v : List Nat) =>
    Token.mk ty v l.line l.column
  if l.ch == 0 then (mkTok .eof [], l)
  else if l.ch == 40 || l.ch == 41 || l.ch == 44 || l.ch == 46 || l.ch == 59
  then (mkTok .punctuation [l.ch], readChar l)
  else if l.ch == 42 || l.ch == 61 then (mkTok .operator [l.ch], readChar l)
  else if l.ch == 33 || l.ch == 60 || l.ch == 62 then
    if peekChar l == 61 then
      (mkTok .operator [l.ch, 61], readChar (readChar l))
    else (mkTok .operator [l.ch], readChar l)
  else if l.ch == 39 then
    let l3 := readStringLoopF fuel (readChar l)
    (mkTok .strLit (sliceInput l (l.position + 1) l3.position), readChar l3)
  else if isLetterB l.ch then
    let l2 := readCharsWhile
      (fun b => isLetterB b || isDigitB b || b == 95) fuel l
    let v := sliceInput l l.position l2.position
    (mkTok (if isKeywordB v then .keyword else .ident) v, l2)
  else if isDigitB l.ch then
    let l2 := readNumberF fuel false l
    (mkTok .literal (sliceInput l l.position l2.position), l2)
  else (mkTok .operator [l.ch], readChar l)

/-- `NextToken`: skip whitespace and a comment, then dispatch on the
current character exactly as the Go switch does.  Note that the newline is
NOT skipped (`skipWhitespace` excludes it), so a newline reaches the
default branch and is emitted as a one-byte Operator token. -/
def nextToken (l0 : Lexer) : Token × Lexer :=
  let fuel := l0.input.length + 1
  emitToken fuel (skipCommentF fuel (skipWhitespaceF fuel l0))

/-- The `Tokenize` loop (each emitted token consumes at least one input
byte, so `|input| + 1` rounds suffice). -/
def tokenizeF : Nat → Lexer → List Token
  | 0, _ => []
  | fuel + 1, l =>
    if (nextToken l).1.type == .eof then []
    else (nextToken l).1 :: tokenizeF fuel (nextToken l).2

/-- `Lexer.Tokenize`. -/
def tokenize (input : List Nat) : List Token :=
  tokenizeF (input.length + 1) (NewLexer input)

/-! ### Claim C8: whitespace and comments in the token stream -/

/-- C8 counterexample: lexing `"a\nb"` produces three tokens, the middle
one an Operator token holding exactly the newline byte 10, which
`unicode.IsSpace` classifies as whitespace — `skipWhitespace` deliberately
stops at the newline (`l.ch != chr 10`) and `NextToken` has no newline
case, so the default branch emits it. -/
theorem C8_newline_becomes_token :
    (tokenize (strBytes "a\nb")).map (fun t => (t.type, t.value))
      = [(.ident, [97]), (.operator, [10]), (.ident, [98])] ∧
    isSpaceB 10 = true := by
  decide

/-- The lexer-state invariant: `readPosition` trails `position` by one and
`ch` caches the byte at `position` (0 past the end).  It holds for the
output of `readChar` unconditionally, hence for every state the lexer ever
passes around. -/
def LexInv (l : Lexer) : Prop :=
  l.readPosition = l.position + 1 ∧
  l.ch = (if l.position < l.input.length then l.input.getD l.position 0
    else 0)

theorem readChar_inv (l : Lexer) : LexInv (readChar l) := by
  simp only [readChar, LexInv]
  split <;> rename_i h1 <;> split <;> refine ⟨rfl, ?_⟩ <;> dsimp only <;>
    first
      | rw [if_neg (by omega)]
      | rw [if_pos (by omega)]

theorem readChar_input (l : Lexer) : (readChar l).input = l.input := by
  simp only [readChar]
  split <;> split <;> rfl

theorem readChar_position (l : Lexer) (h : LexInv l) :
    (readChar l).position = l.position + 1 := by
  simp only [readChar]
  split <;> split <;> simp [h.1]

theorem skipWhitespaceF_inv : ∀ (fuel : Nat) (l : Lexer), LexInv l →
    LexInv (skipWhitespaceF fuel l)
  | 0, l, h => h
  | fuel + 1, l, h => by
    rw [skipWhitespaceF]
    split
    · exact skipWhitespaceF_inv fuel _ (readChar_inv l)
    · exact h

theorem skipWhitespaceF_input : ∀ (fuel : Nat) (l : Lexer),
    (skipWhitespaceF fuel l).input = l.input
  | 0, _ => rfl
  | fuel + 1, l => by
    rw [skipWhitespaceF]
    split
    · rw [skipWhitespaceF_input fuel _, readChar_input]
    · rfl

theorem skipToNewlineF_inv : ∀ (fuel : Nat) (l : Lexer), LexInv l →
    LexInv (skipToNewlineF fuel l)
  | 0, l, h => h
  | fuel + 1, l, h => by
    rw [skipToNewlineF]
    split
    · exact skipToNewlineF_inv fuel _ (readChar_inv l)
    · exact h

theorem skipToNewlineF_input : ∀ (fuel : Nat) (l : Lexer),
    (skipToNewlineF fuel l).input = l.input
  | 0, _ => rfl
  | fuel + 1, l => by
    rw [skipToNewlineF]
    split
    · rw [skipToNewlineF_input fuel _, readChar_input]
    · rfl

/-- With fuel at least the remaining input, `skipWhitespace` really stops:
its result's character is not a skippable (non-newline) space. -/
theorem skipWhitespaceF_post : ∀ (fuel : Nat) (l : Lexer), LexInv l →
    l.input.length + 1 - l.position ≤ fuel →
    ¬(isSpaceB (skipWhitespaceF fuel l).ch = true ∧
      (skipWhitespaceF fuel l).ch ≠ 10) := by
  intro fuel
  induction fuel with
  | zero =>
    intro l h hb
    obtain ⟨h1, h2⟩ := h
    rw [skipWhitespaceF]
    have hpos : l.input.length < l.position := by omega
    have : l.ch = 0 := by rw [h2]; rw [if_neg (by omega)]
    rw [this]
    simp [isSpaceB]
  | succ fuel ih =>
    intro l h hb
    rw [skipWhitespaceF]
    split
    · rename_i hcond
      have hch : l.ch ≠ 0 := by
        intro h0
        rw [h0] at hcond
        simp [isSpaceB] at hcond
      have hpos : l.position < l.input.length := by
        by_contra hge
        exact hch (by rw [h.2, if_neg hge])
      refine ih (readChar l) (readChar_inv l) ?_
      rw [readChar_input, readChar_position l h]
      omega
    · rename_i hcond
      simpa using hcond

/-- The state `NextToken` dispatches on after the two skips: the invariant
holds and the character is not a skippable space. -/
theorem skipped_state_post (l0 : Lexer) (h : LexInv l0) :
    LexInv (skipCommentF (l0.input.length + 1)
        (skipWhitespaceF (l0.input.length + 1) l0)) ∧
    ¬(isSpaceB (skipCommentF (l0.input.length + 1)
        (skipWhitespaceF (l0.input.length + 1) l0)).ch = true ∧
      (skipCommentF (l0.input.length + 1)
        (skipWhitespaceF (l0.input.length + 1) l0)).ch ≠ 10) := by
  have hinv1 := skipWhitespaceF_inv (l0.input.length + 1) l0 h
  have hpost1 := skipWhitespaceF_post (l0.input.length + 1) l0 h (by omega)
  unfold skipCommentF
  split
  · have hinv2 := skipToNewlineF_inv (l0.input.length + 1) _ hinv1
    refine ⟨skipWhitespaceF_inv _ _ hinv2, ?_⟩
    refine skipWhitespaceF_post _ _ hinv2 ?_
    rw [skipToNewlineF_input, skipWhitespaceF_input]
    omega
  · exact ⟨hinv1, hpost1⟩

/-- The head of a Go slice `input[a:b]` is the byte at `a`
(`getElem?` form). -/
theorem slice_head0 (xs : List Nat) (a b c : Nat)
    (hc : ((xs.take b).drop a)[0]? = some c) : xs.getD a 0 = c := by
  rw [List.getElem?_drop] at hc
  by_cases hab : a + 0 < b
  · rw [List.getElem?_take_of_lt hab] at hc
    rw [Nat.add_zero] at hc
    simp [List.getD_eq_getElem?_getD, hc]
  · rw [List.getElem?_take] at hc
    rw [if_neg hab] at hc
    cases hc

/-- The head of a Go slice `input[a:b]` is the byte at `a` (membership in
the one-element prefix form). -/
theorem slice_head (xs : List Nat) (a b c : Nat)
    (hc : c ∈ ((xs.take b).drop a).take 1) : xs.getD a 0 = c := by
  have h0 : ((xs.take b).drop a).head? = some c := by
    cases hcase : (xs.take b).drop a with
    | nil => rw [hcase] at hc; simp at hc
    | cons x rest =>
      rw [hcase] at hc
      simp at hc
      rw [hc]
      rfl
  rw [List.head?_eq_getElem?] at h0
  exact slice_head0 xs a b c h0

/-- The property every non-String token satisfies: a whitespace first byte
forces the newline Operator token. -/
def tokenOK (tok : Token) : Prop :=
  tok.type ≠ .strLit →
  ∀ b ∈ tok.value.take 1, isSpaceB b = true →
    tok.type = .operator ∧ tok.value = [10]

theorem emitToken_ok (fuel : Nat) (m : Lexer) (hm : LexInv m)
    (hpost : ¬(isSpaceB m.ch = true ∧ m.ch ≠ 10)) :
    tokenOK (emitToken fuel m).1 := by
  rcases hnt : emitToken fuel m with ⟨tok, st⟩
  unfold emitToken at hnt
  dsimp only at hnt
  split at hnt
  · cases hnt
    intro _ b hb
    simp at hb
  · split at hnt
    · rename_i hch
      cases hnt
      intro _ b hb habs
      simp at hb
      subst hb
      simp [isSpaceB] at habs
      simp at hch
      omega
    · split at hnt
      · rename_i hch
        cases hnt
        intro _ b hb habs
        simp at hb
        subst hb
        simp [isSpaceB] at habs
        simp at hch
        omega
      · split at hnt
        · rename_i hch
          split at hnt <;> cases hnt <;> intro _ b hb habs <;>
            simp at hb <;> subst hb <;>
            simp [isSpaceB] at habs <;> simp at hch <;> omega
        · split at hnt
          · cases hnt
            intro hne
            simp at hne
          · split at hnt
            · rename_i hch0 hn2 hn3 hn4 hn5 hletter
              cases hnt
              intro _ b hb habs
              dsimp only at hb
              simp only [sliceInput] at hb
              have hbch := slice_head m.input m.position _ b hb
              have hpos : m.position < m.input.length := by
                by_contra hge
                have : m.ch = 0 := by rw [hm.2, if_neg hge]
                rw [this] at hch0
                simp at hch0
              have hchb : m.ch = b := by
                rw [hm.2, if_pos hpos]
                exact hbch
              rw [← hchb] at habs
              have : isSpaceB m.ch = false := by
                simp [isLetterB, isUnicodeLetterB, isSpaceB] at hletter ⊢
                omega
              rw [this] at habs
              cases habs
            · split at hnt
              · rename_i hch0 hn2 hn3 hn4 hn5 hnl hdigit
                cases hnt
                intro _ b hb habs
                dsimp only at hb
                simp only [sliceInput] at hb
                have hbch := slice_head m.input m.position _ b hb
                have hpos : m.position < m.input.length := by
                  by_contra hge
                  have : m.ch = 0 := by rw [hm.2, if_neg hge]
                  rw [this] at hch0
                  simp at hch0
                have hchb : m.ch = b := by
                  rw [hm.2, if_pos hpos]
                  exact hbch
                rw [← hchb] at habs
                have : isSpaceB m.ch = false := by
                  simp [isDigitB, isSpaceB] at hdigit ⊢
                  omega
                rw [this] at habs
                cases habs
              · cases hnt
                intro _ b hb habs
                simp at hb
                subst hb
                have h10 : m.ch = 10 := by
                  by_contra hne10
                  exact hpost ⟨habs, hne10⟩
                simp [h10]

theorem nextToken_ok (l0 : Lexer) (h : LexInv l0) :
    tokenOK (nextToken l0).1 := by
  obtain ⟨hm, hpost⟩ := skipped_state_post l0 h
  unfold nextToken
  exact emitToken_ok _ _ hm hpost

theorem readCharsWhile_inv (p : Nat → Bool) :
    ∀ (fuel : Nat) (l : Lexer), LexInv l → LexInv (readCharsWhile p fuel l)
  | 0, _, h => h
  | fuel + 1, l, h => by
    rw [readCharsWhile]
    split
    · exact readCharsWhile_inv p fuel _ (readChar_inv l)
    · exact h

theorem readNumberF_inv : ∀ (fuel : Nat) (hasDec : Bool) (l : Lexer),
    LexInv l → LexInv (readNumberF fuel hasDec l)
  | 0, _, _, h => h
  | fuel + 1, hasDec, l, h => by
    rw [readNumberF]
    split
    · exact readNumberF_inv fuel hasDec _ (readChar_inv l)
    · split
      · split
        · exact h
        · exact readNumberF_inv fuel true _ (readChar_inv l)
      · exact h

theorem readStringLoopF_inv : ∀ (fuel : Nat) (l : Lexer),
    LexInv l → LexInv (readStringLoopF fuel l)
  | 0, _, h => h
  | fuel + 1, l, h => by
    rw [readStringLoopF]
    split
    · split
      · exact readStringLoopF_inv fuel _ (readChar_inv _)
      · exact readStringLoopF_inv fuel _ (readChar_inv _)
    · exact h

theorem emitToken_inv (fuel : Nat) (m : Lexer) (hm : LexInv m) :
    LexInv (emitToken fuel m).2 := by
  unfold emitToken
  dsimp only
  split
  · exact hm
  · split
    · exact readChar_inv _
    · split
      · exact readChar_inv _
      · split
        · split
          · exact readChar_inv _
          · exact readChar_inv _
        · split
          · exact readChar_inv _
          · split
            · exact readCharsWhile_inv _ fuel m hm
            · split
              · exact readNumberF_inv fuel false m hm
              · exact readChar_inv _

theorem nextToken_inv (l0 : Lexer) (h : LexInv l0) :
    LexInv (nextToken l0).2 := by
  unfold nextToken
  exact emitToken_inv _ _ (skipped_state_post l0 h).1

/-- No non-String token starts with the comment marker `--`: comments are
consumed before dispatch and every other branch emits a value whose first
two bytes cannot be `45, 45`. -/
def tokenNC (tok : Token) : Prop :=
  tok.type ≠ .strLit → tok.value.take 2 ≠ [45, 45]

theorem emitToken_nc (fuel : Nat) (m : Lexer) (hm : LexInv m) :
    tokenNC (emitToken fuel m).1 := by
  rcases hnt : emitToken fuel m with ⟨tok, st⟩
  unfold emitToken at hnt
  dsimp only at hnt
  split at hnt
  · cases hnt
    intro _ hv
    simp at hv
  · split at hnt
    · cases hnt
      intro _ hv
      simp at hv
    · split at hnt
      · cases hnt
        intro _ hv
        simp at hv
      · split at hnt
        · split at hnt <;> cases hnt <;> intro _ hv <;> simp at hv <;> omega
        · split at hnt
          · cases hnt
            intro hne
            simp at hne
          · split at hnt
            · rename_i hch0 hn2 hn3 hn4 hn5 hletter
              cases hnt
              intro _ hv
              dsimp only at hv
              simp only [sliceInput] at hv
              have h2 : ((((m.input.take (readCharsWhile
                  (fun b => isLetterB b || isDigitB b || b == 95)
                    fuel m).position).drop m.position).take 2))[0]?
                  = some 45 := by rw [hv]; rfl
              rw [List.getElem?_take, if_pos (by decide)] at h2
              have hbch := slice_head0 m.input m.position _ 45 h2
              have hpos : m.position < m.input.length := by
                by_contra hge
                have : m.ch = 0 := by rw [hm.2, if_neg hge]
                rw [this] at hch0
                simp at hch0
              have hchb : m.ch = 45 := by
                rw [hm.2, if_pos hpos]
                exact hbch
              rw [hchb] at hletter
              simp [isLetterB, isUnicodeLetterB] at hletter
            · split at hnt
              · rename_i hch0 hn2 hn3 hn4 hn5 hnl hdigit
                cases hnt
                intro _ hv
                dsimp only at hv
                simp only [sliceInput] at hv
                have h2 : ((((m.input.take (readNumberF fuel false
                    m).position).drop m.position).take 2))[0]?
                    = some 45 := by rw [hv]; rfl
                rw [List.getElem?_take, if_pos (by decide)] at h2
                have hbch := slice_head0 m.input m.position _ 45 h2
                have hpos : m.position < m.input.length := by
                  by_contra hge
                  have : m.ch = 0 := by rw [hm.2, if_neg hge]
                  rw [this] at hch0
                  simp at hch0
                have hchb : m.ch = 45 := by
                  rw [hm.2, if_pos hpos]
                  exact hbch
                rw [hchb] at hdigit
                simp [isDigitB] at hdigit
              · cases hnt
                intro _ hv
                simp at hv

theorem nextToken_nc (l0 : Lexer) (h : LexInv l0) :
    tokenNC (nextToken l0).1 := by
  unfold nextToken
  exact emitToken_nc _ _ (skipped_state_post l0 h).1

theorem tokenizeF_clean : ∀ (fuel : Nat) (l : Lexer), LexInv l →
    ∀ tok ∈ tokenizeF fuel l, tokenOK tok ∧ tokenNC tok
  | 0, _, _, _, hmem => absurd hmem (List.not_mem_nil _)
  | fuel + 1, l, h, tok, hmem => by
    rw [tokenizeF] at hmem
    split at hmem
    · exact absurd hmem (List.not_mem_nil _)
    · rcases List.mem_cons.1 hmem with heq | hrest
      · subst heq
        exact ⟨nextToken_ok l h, nextToken_nc l h⟩
      · exact tokenizeF_clean fuel _ (nextToken_inv l h) tok hrest

theorem NewLexer_inv (input : List Nat) : LexInv (NewLexer input) :=
  readChar_inv _

/-- C8 (amended): in the token stream of any input, non-newline whitespace
and `--`-to-end-of-line comments never produce a token — every non-String
token whose first byte is a whitespace byte is the one-byte newline
Operator token (the newline itself IS emitted as a token, not skipped),
and no non-String token begins with the comment marker `--`.  Concretely,
lexing `"a -- c\nb"` yields exactly the identifier `a`, the newline
Operator, and the identifier `b`: the comment produced no token. -/
theorem C8_whitespace_comment_skipping_amended :
    (∀ (input : List Nat), ∀ tok ∈ tokenize input,
      tok.type ≠ .strLit →
        (∀ b ∈ tok.value.take 1, isSpaceB b = true →
          tok.type = .operator ∧ tok.value = [10]) ∧
        tok.value.take 2 ≠ [45, 45]) ∧
    (tokenize (strBytes "a -- c\nb")).map (fun t => (t.type, t.value))
      = [(.ident, [97]), (.operator, [10]), (.ident, [98])] := by
  constructor
  · intro input tok hmem
    have h := tokenizeF_clean (input.length + 1) (NewLexer input)
      (NewLexer_inv input) tok hmem
    intro hne
    exact ⟨h.1 hne, h.2 hne⟩
  · decide

theorem C8_whitespace_comment_skipping_amended_witness :
    (Token.mk .operator [10] 2 1 ∈ tokenize (strBytes "\n")) ∧
    ((Token.mk .operator [10] 2 1).type = .operator ∧
      (Token.mk .operator [10] 2 1).value = [10]) ∧
    (Token.mk .operator [10] 2 1).value.take 2 ≠ [45, 45] :=
  ⟨by decide,
    (C8_whitespace_comment_skipping_amended.1 (strBytes "\n")
      (Token.mk .operator [10] 2 1) (by decide)
      (by decide)).1 10 (by decide) (by decide),
    (C8_whitespace_comment_skipping_amended.1 (strBytes "\n")
      (Token.mk .operator [10] 2 1) (by decide)
      (by decide)).2⟩

/-! ### Claim C9: heap model for `Select` result isolation

`Table.Select` returns `[]*Row`; whether callers can mutate their copies
without affecting stored state is a question about pointer aliasing, so
this claim is settled over an explicit two-level heap: row addresses map
to the `Values` slice of a `Row` (a list of value addresses), and value
addresses map to the value data a `Value` interface pointer points at.
The table's `Rows` field is the list of its row addresses. -/

/-- Association-list update: replace the payload of every entry with the
given key (a heap cell write). -/
def assocSet {α : Type} (l : List (Nat × α)) (k : Nat) (x : α) :
    List (Nat × α) :=
  l.map (fun p => if p.1 == k then (p.1, x) else p)

structure Heap where
  rows : List (Nat × List Nat)
  vals : List (Nat × Value)
  nextRow : Nat
  nextVal : Nat
  deriving DecidableEq, Repr

/-- Read the `Values` slice of the row at address `ra`. -/
def rowSlice (h : Heap) (ra : Nat) : List Nat :=
  (h.rows.lookup ra).getD []

/-- Dereference a value address. -/
def valAt (h : Heap) (va : Nat) : Value :=
  (h.vals.lookup va).getD .null

/-- The data a `*Row` exposes: its values, read through the heap. -/
def readRow (h : Heap) (ra : Nat) : List Value :=
  (rowSlice h ra).map (valAt h)

/-- The stored rows of a table whose `Rows` field holds `trows`. -/
def readTable (h : Heap) (trows : List Nat) : List (List Value) :=
  trows.map (readRow h)

/-- `IntegerValue.Clone` etc.: a fresh struct carrying the same payload
(the payloads — int64, float64, string, bool — are immutable). -/
def cloneValue : Value → Value
  | .null => .null
  | .integer n => .integer n
  | .float f => .float f
  | .text s => .text s
  | .boolean b => .boolean b

/-- The loop of `Row.Clone`: `values[i] = v.Clone()` allocates one fresh
value cell per slot. -/
def cloneVals : Heap → List Nat → Heap × List Nat
  | h, [] => (h, [])
  | h, va :: rest =>
    let h1 : Heap :=
      { h with
          vals := (h.nextVal, cloneValue (valAt h va)) :: h.vals
          nextVal := h.nextVal + 1 }
    let p := cloneVals h1 rest
    (p.1, h.nextVal :: p.2)

/-- `Row.Clone`: a fresh `values` slice of freshly cloned cells, wrapped
in a fresh `&Row{...}`. -/
def rowClone (h : Heap) (ra : Nat) : Heap × Nat :=
  let p := cloneVals h (rowSlice h ra)
  ({ p.1 with
      rows := (p.1.nextRow, p.2) :: p.1.rows
      nextRow := p.1.nextRow + 1 }, p.1.nextRow)

/-- `Table.Select`: walk the stored rows in order and append `row.Clone()`
for each row the predicate accepts (`predicate == nil` is the constantly
true predicate). -/
def selectH : Heap → List Nat → (List Value → Bool) → Heap × List Nat
  | h, [], _ => (h, [])
  | h, ra :: rest, pred =>
    if pred (readRow h ra) then
      let c := rowClone h ra
      let p := selectH c.1 rest pred
      (p.1, c.2 :: p.2)
    else selectH h rest pred

/-- Caller mutation 1 — `(*Row).Set(i, value)` on a returned row: write a
(possibly new) value address into slot `i` of the row at `ra`. -/
def setSlot (h : Heap) (ra i va : Nat) : Heap :=
  { h with rows := assocSet h.rows ra ((rowSlice h ra).set i va) }

/-- Caller mutation 2 — writing through a value pointer of a returned row
(e.g. `r.Values[i].(*IntegerValue).Value = 9`): overwrite the cell at
value address `wa`. -/
def setVal (h : Heap) (wa : Nat) (v : Value) : Heap :=
  { h with vals := assocSet h.vals wa v }

/-- Heap well-formedness for a table: every stored row address and every
value address reachable from a stored row was allocated (is below the
allocation counters). -/
def HeapWF (h : Heap) (trows : List Nat) : Prop :=
  ∀ ra ∈ trows, ra < h.nextRow ∧ ∀ va ∈ rowSlice h ra, va < h.nextVal

/-- Heap extension: counters only grow and already-allocated cells keep
their contents. -/
def Heap.ext (h h2 : Heap) : Prop :=
  h.nextRow ≤ h2.nextRow ∧ h.nextVal ≤ h2.nextVal ∧
  (∀ k, k < h.nextRow → h2.rows.lookup k = h.rows.lookup k) ∧
  (∀ k, k < h.nextVal → h2.vals.lookup k = h.vals.lookup k)

theorem Heap.ext_refl (h : Heap) : Heap.ext h h :=
  ⟨le_refl _, le_refl _, fun _ _ => rfl, fun _ _ => rfl⟩

theorem Heap.ext_trans {h1 h2 h3 : Heap} (a : Heap.ext h1 h2)
    (b : Heap.ext h2 h3) : Heap.ext h1 h3 := by
  obtain ⟨a1, a2, a3, a4⟩ := a
  obtain ⟨b1, b2, b3, b4⟩ := b
  refine ⟨le_trans a1 b1, le_trans a2 b2, ?_, ?_⟩
  · intro k hk
    rw [b3 k (lt_of_lt_of_le hk a1), a3 k hk]
  · intro k hk
    rw [b4 k (lt_of_lt_of_le hk a2), a4 k hk]

theorem lookup_cons_ne {α : Type} (l : List (Nat × α)) (a k : Nat) (x : α)
    (hne : k ≠ a) : ((a, x) :: l).lookup k = l.lookup k := by
  simp only [List.lookup]
  have hb : (k == a) = false := beq_eq_false_iff_ne.mpr hne
  rw [hb]

theorem assocSet_lookup_ne {α : Type} (l : List (Nat × α)) (k k2 : Nat)
    (x : α) (hne : k2 ≠ k) : (assocSet l k x).lookup k2 = l.lookup k2 := by
  induction l with
  | nil => rfl
  | cons p rest ih =>
    rcases p with ⟨a, b⟩
    simp only [assocSet, List.map_cons]
    by_cases hk2a : k2 = a
    · have hak : ¬((a == k) = true) := by
        simp only [beq_iff_eq]
        intro hh
        exact hne (hk2a.trans hh)
      rw [if_neg hak]
      simp [List.lookup, hk2a]
    · have hh : ((if (a == k) = true then (a, x) else (a, b)) ::
          List.map (fun p => if (p.1 == k) = true then (p.1, x) else p)
            rest).lookup k2
          = (List.map (fun p => if (p.1 == k) = true then (p.1, x) else p)
            rest).lookup k2 := by
        split <;> exact lookup_cons_ne _ _ _ _ hk2a
      rw [hh, lookup_cons_ne _ _ _ _ hk2a]
      exact ih

theorem cloneVals_rows (addrs : List Nat) : ∀ (h : Heap),
    (cloneVals h addrs).1.rows = h.rows := by
  induction addrs with
  | nil => intro h; rfl
  | cons va rest ih =>
    intro h
    rw [cloneVals]
    exact ih _

theorem cloneVals_nextRow (addrs : List Nat) : ∀ (h : Heap),
    (cloneVals h addrs).1.nextRow = h.nextRow := by
  induction addrs with
  | nil => intro h; rfl
  | cons va rest ih =>
    intro h
    rw [cloneVals]
    exact ih _

theorem cloneVals_nextVal_ge (addrs : List Nat) : ∀ (h : Heap),
    h.nextVal ≤ (cloneVals h addrs).1.nextVal := by
  induction addrs with
  | nil => intro h; exact le_refl _
  | cons va rest ih =>
    intro h
    rw [cloneVals]
    dsimp only
    have hstep := ih
      { h with
          vals := (h.nextVal, cloneValue (valAt h va)) :: h.vals
          nextVal := h.nextVal + 1 }
    exact le_trans (Nat.le_succ _) hstep

theorem cloneVals_vals_lookup_lt (addrs : List Nat) : ∀ (h : Heap)
    (k : Nat), k < h.nextVal →
    (cloneVals h addrs).1.vals.lookup k = h.vals.lookup k := by
  induction addrs with
  | nil => intro h k _; rfl
  | cons va rest ih =>
    intro h k hk
    rw [cloneVals]
    rw [ih _ k (by exact lt_of_lt_of_le hk (Nat.le_succ _))]
    exact lookup_cons_ne _ _ _ _ (by omega)

theorem cloneVals_fresh (addrs : List Nat) : ∀ (h : Heap),
    ∀ a ∈ (cloneVals h addrs).2,
      h.nextVal ≤ a ∧ a < (cloneVals h addrs).1.nextVal := by
  induction addrs with
  | nil => intro h a ha; exact absurd ha (List.not_mem_nil _)
  | cons va rest ih =>
    intro h a ha
    rw [cloneVals] at ha ⊢
    dsimp only at ha ⊢
    rcases List.mem_cons.1 ha with heq | hrest
    · subst heq
      constructor
      · exact le_refl _
      · have hge := cloneVals_nextVal_ge rest
          { h with
              vals := (h.nextVal, cloneValue (valAt h va)) :: h.vals
              nextVal := h.nextVal + 1 }
        exact lt_of_lt_of_le (Nat.lt_succ_self _) hge
    · have := ih _ a hrest
      constructor
      · exact le_trans (Nat.le_succ _) this.1
      · exact this.2

theorem cloneVals_ext (addrs : List Nat) (h : Heap) :
    Heap.ext h (cloneVals h addrs).1 := by
  refine ⟨?_, cloneVals_nextVal_ge addrs h, ?_, ?_⟩
  · rw [cloneVals_nextRow]
  · intro k _
    rw [cloneVals_rows]
  · intro k hk
    exact cloneVals_vals_lookup_lt addrs h k hk

theorem rowClone_ext (h : Heap) (ra : Nat) :
    Heap.ext h (rowClone h ra).1 := by
  simp only [rowClone]
  refine ⟨?_, ?_, ?_, ?_⟩
  · dsimp only
    rw [cloneVals_nextRow]
    omega
  · dsimp only
    exact cloneVals_nextVal_ge _ h
  · intro k hk
    dsimp only
    rw [lookup_cons_ne _ _ _ _ (by rw [cloneVals_nextRow]; omega)]
    rw [cloneVals_rows]
  · intro k hk
    dsimp only
    exact cloneVals_vals_lookup_lt _ h k hk

theorem rowClone_addr (h : Heap) (ra : Nat) :
    (rowClone h ra).2 = h.nextRow ∧
    (rowClone h ra).1.nextRow = h.nextRow + 1 := by
  simp only [rowClone]
  rw [cloneVals_nextRow]
  exact ⟨rfl, rfl⟩

theorem rowClone_slice (h : Heap) (ra : Nat) :
    rowSlice (rowClone h ra).1 (rowClone h ra).2
      = (cloneVals h (rowSlice h ra)).2 := by
  simp only [rowClone, rowSlice]
  simp [List.lookup]

theorem rowClone_fresh (h : Heap) (ra : Nat) :
    ∀ va ∈ rowSlice (rowClone h ra).1 (rowClone h ra).2,
      h.nextVal ≤ va ∧ va < (rowClone h ra).1.nextVal := by
  intro va hva
  rw [rowClone_slice] at hva
  have := cloneVals_fresh (rowSlice h ra) h va hva
  exact ⟨this.1, this.2⟩

theorem selectH_spec (pred : List Value → Bool) : ∀ (trows2 : List Nat)
    (h : Heap),
    Heap.ext h (selectH h trows2 pred).1 ∧
    ∀ ca ∈ (selectH h trows2 pred).2,
      h.nextRow ≤ ca ∧ ca < (selectH h trows2 pred).1.nextRow ∧
      ∀ va ∈ rowSlice (selectH h trows2 pred).1 ca,
        h.nextVal ≤ va ∧ va < (selectH h trows2 pred).1.nextVal := by
  intro trows2
  induction trows2 with
  | nil =>
    intro h
    exact ⟨Heap.ext_refl h, fun ca hca => absurd hca (List.not_mem_nil _)⟩
  | cons ra rest ih =>
    intro h
    rw [selectH]
    split
    · dsimp only
      obtain ⟨ihext, ihfresh⟩ := ih (rowClone h ra).1
      have hrc := rowClone_ext h ra
      have haddr := rowClone_addr h ra
      refine ⟨Heap.ext_trans hrc ihext, ?_⟩
      intro ca hca
      rcases List.mem_cons.1 hca with heq | hrest2
      · subst heq
        have hlt : (rowClone h ra).2 < (rowClone h ra).1.nextRow := by
          omega
        refine ⟨by omega, lt_of_lt_of_le hlt ihext.1, ?_⟩
        intro va hva
        have hslice : rowSlice (selectH (rowClone h ra).1 rest pred).1
            (rowClone h ra).2 = rowSlice (rowClone h ra).1
              (rowClone h ra).2 := by
          unfold rowSlice
          rw [ihext.2.2.1 _ hlt]
        rw [hslice] at hva
        have := rowClone_fresh h ra va hva
        exact ⟨this.1, lt_of_lt_of_le this.2 ihext.2.1⟩
      · have := ihfresh ca hrest2
        exact ⟨le_trans (by omega) this.1, this.2.1,
          fun va hva => ⟨le_trans hrc.2.1 (this.2.2 va hva).1,
            (this.2.2 va hva).2⟩⟩
    · exact ih h

theorem readRow_ext {h h2 : Heap} {ra : Nat} (hext : Heap.ext h h2)
    (hra : ra < h.nextRow) (hvas : ∀ va ∈ rowSlice h ra, va < h.nextVal) :
    readRow h2 ra = readRow h ra := by
  unfold readRow
  have hs : rowSlice h2 ra = rowSlice h ra := by
    unfold rowSlice
    rw [hext.2.2.1 ra hra]
  rw [hs]
  apply List.map_congr_left
  intro va hva
  unfold valAt
  rw [hext.2.2.2 va (hvas va hva)]

theorem readTable_ext {h h2 : Heap} {trows : List Nat}
    (hext : Heap.ext h h2) (hwf : HeapWF h trows) :
    readTable h2 trows = readTable h trows := by
  unfold readTable
  apply List.map_congr_left
  intro ra hra
  exact readRow_ext hext (hwf ra hra).1 (hwf ra hra).2

theorem readRow_setSlot_ne (h : Heap) (ra i va ra2 : Nat) (hne : ra2 ≠ ra) :
    readRow (setSlot h ra i va) ra2 = readRow h ra2 := by
  unfold readRow rowSlice valAt setSlot
  dsimp only
  rw [assocSet_lookup_ne _ _ _ _ hne]

theorem readRow_setVal_notin (h : Heap) (wa : Nat) (v : Value) (ra : Nat)
    (hnotin : ∀ va ∈ rowSlice h ra, va ≠ wa) :
    readRow (setVal h wa v) ra = readRow h ra := by
  unfold readRow rowSlice valAt setVal
  dsimp only
  apply List.map_congr_left
  intro va hva
  rw [assocSet_lookup_ne _ _ _ _ (hnotin va hva)]

/-- C9: `Select` returns deep clones — for every well-formed heap/table
state and predicate, the select leaves the stored rows readable unchanged,
and mutating a returned row (writing a value into one of its slots via
`Row.Set`, or writing through one of its value pointers) leaves the
table's stored rows unchanged. -/
theorem C9_select_result_isolation
    (h : Heap) (trows : List Nat) (pred : List Value → Bool)
    (hwf : HeapWF h trows) :
    readTable (selectH h trows pred).1 trows = readTable h trows ∧
    ∀ ca ∈ (selectH h trows pred).2,
      (∀ i va, readTable (setSlot (selectH h trows pred).1 ca i va) trows
          = readTable h trows) ∧
      (∀ wa ∈ rowSlice (selectH h trows pred).1 ca, ∀ v,
        readTable (setVal (selectH h trows pred).1 wa v) trows
          = readTable h trows) := by
  obtain ⟨hext, hfresh⟩ := selectH_spec pred trows h
  have hbase : readTable (selectH h trows pred).1 trows
      = readTable h trows := readTable_ext hext hwf
  refine ⟨hbase, ?_⟩
  intro ca hca
  obtain ⟨hca1, hca2, hcav⟩ := hfresh ca hca
  constructor
  · intro i va
    rw [← hbase]
    unfold readTable
    apply List.map_congr_left
    intro ra hra
    apply readRow_setSlot_ne
    have := (hwf ra hra).1
    omega
  · intro wa hwa v
    rw [← hbase]
    unfold readTable
    apply List.map_congr_left
    intro ra hra
    apply readRow_setVal_notin
    intro va hva
    have hslice : rowSlice (selectH h trows pred).1 ra
        = rowSlice h ra := by
      unfold rowSlice
      rw [hext.2.2.1 ra (hwf ra hra).1]
    rw [hslice] at hva
    have hva2 := (hwf ra hra).2 va hva
    have hwa2 := (hcav wa hwa).1
    omega

theorem C9_select_result_isolation_witness :
    HeapWF ⟨[(0, [0])], [(0, .integer 1)], 1, 1⟩ [0] ∧
    ((1 : Nat) ∈ (selectH ⟨[(0, [0])], [(0, .integer 1)], 1, 1⟩ [0]
      (fun _ => true)).2) ∧
    readTable (setSlot (selectH ⟨[(0, [0])], [(0, .integer 1)], 1, 1⟩ [0]
        (fun _ => true)).1 1 0 5) [0]
      = readTable ⟨[(0, [0])], [(0, .integer 1)], 1, 1⟩ [0] ∧
    ((1 : Nat) ∈ rowSlice (selectH ⟨[(0, [0])], [(0, .integer 1)], 1, 1⟩
      [0] (fun _ => true)).1 1) ∧
    readTable (setVal (selectH ⟨[(0, [0])], [(0, .integer 1)], 1, 1⟩ [0]
        (fun _ => true)).1 1 (.integer 99)) [0]
      = readTable ⟨[(0, [0])], [(0, .integer 1)], 1, 1⟩ [0] :=
  ⟨by unfold HeapWF; decide, by decide,
    ((C9_select_result_isolation ⟨[(0, [0])], [(0, .integer 1)], 1, 1⟩ [0]
      (fun _ => true) (by unfold HeapWF; decide)).2 1 (by decide)).1 0 5,
    by decide,
    ((C9_select_result_isolation ⟨[(0, [0])], [(0, .integer 1)], 1, 1⟩ [0]
      (fun _ => true) (by unfold HeapWF; decide)).2 1 (by decide)).2 1
        (by decide) (.integer 99)⟩

end RDBMS
